import Mathlib

/-!
Verification development for the xmrit standalone XMR statistics engine
(js/xmr-math.ts).  The TypeScript source is shallowly embedded:

* JS numbers are modelled as rationals; the spots that can legitimately hold
  the JS Infinity sentinels (chart bounds, date extremes) use
  WithBot (WithTop Rat).
* Fields that can be null or undefined in a raw record (the date string x and
  value) are Option-valued; JS truthiness tests are spelled out explicitly.
* dayjs date parsing is an uninterpreted parameter fromDateStr; the engine is
  parametric in it.
* Array.prototype.sort with a comparator (stable per the ECMAScript spec) is
  modelled as a stable insertion sort with respect to the comparator key.
* The two imperative sliding-window loops in checkRunOfEight and
  checkFourNearLimit are embedded as fuel-indexed structural recursions; the
  fuel is always instantiated with the array length, which bounds the number
  of remaining iterations, so the embedding computes exactly the loop.
* The JS expression (aboveOrBelow &= ~(1 << i % 8)) operates on 32-bit
  integers; the mask is always in [0, 255], and the 32-bit complement-and is
  modelled exactly by anding with 4294967295 ^^^ (1 <<< (i % 8)).
-/

namespace Xmr

/-- Extended rationals with the two JS infinities, for chart-bound fields. -/
abbrev ENum := WithBot (WithTop ℚ)

/-- Inject a finite JS number into the extended type. -/
def qe (q : ℚ) : ENum := ((q : WithTop ℚ) : ENum)

/-- Status enum from the source; the integer codes 0..3 are the wire contract. -/
inductive DataStatus where
  | NORMAL
  | RUN_OF_EIGHT_EXCEPTION
  | FOUR_NEAR_LIMIT_EXCEPTION
  | NPL_EXCEPTION
  deriving DecidableEq, Repr

/-- Integer code of a status, as exported by the DataStatus enum. -/
def DataStatus.code : DataStatus → ℕ
  | .NORMAL => 0
  | .RUN_OF_EIGHT_EXCEPTION => 1
  | .FOUR_NEAR_LIMIT_EXCEPTION => 2
  | .NPL_EXCEPTION => 3

/-- A data point; x and value are Option-valued because raw caller records can
hold null or undefined in those fields (removeAllNulls filters them). -/
structure DataValue where
  order : ℤ
  x : Option String
  value : Option ℚ
  status : DataStatus
  deriving DecidableEq, Repr

instance : Inhabited DataValue :=
  ⟨{ order := 0, x := none, value := none, status := DataStatus.NORMAL }⟩

/-- Numeric value of a point as the engine reads it; cleaned points always
have a present value, and JS coerces null to 0 in comparisons. -/
def vOf (d : DataValue) : ℚ := d.value.getD 0

/-- The LineValueType record of the source (limit lines of one segment);
all limit fields are optional in the TS type. -/
structure LineValueType where
  xLeft : ENum
  xRight : ENum
  avgX : ℚ
  avgMovement : Option ℚ
  UNPL : Option ℚ
  LNPL : Option ℚ
  URL : Option ℚ
  lowerQuartile : Option ℚ
  upperQuartile : Option ℚ
  deriving DecidableEq, Repr

instance : Inhabited LineValueType :=
  ⟨{ xLeft := ⊥, xRight := ⊥, avgX := 0, avgMovement := none, UNPL := none,
     LNPL := none, URL := none, lowerQuartile := none, upperQuartile := none }⟩

/-- The Stats result record of the source. -/
structure Stats where
  xchartMin : ENum
  xchartMax : ENum
  mrchartMax : ENum
  lineValues : List LineValueType
  xdataPerRange : List (List DataValue)
  movementsPerRange : List (List DataValue)
  deriving DecidableEq, Repr

/-- All seven values produced by calculateLimits (the source returns them in a
record with every field present). -/
structure LimitValues where
  avgX : ℚ
  avgMovement : ℚ
  UNPL : ℚ
  LNPL : ℚ
  URL : ℚ
  lowerQuartile : ℚ
  upperQuartile : ℚ
  deriving DecidableEq, Repr

def NPL_SCALING : ℚ := 2.66
def URL_SCALING : ℚ := 3.268
def DECIMAL_POINT : ℕ := 2

def USE_MEDIAN_AVG : Bool := false
def USE_MEDIAN_MR : Bool := false
def MEDIAN_NPL_SCALING : ℚ := 3.145
def MEDIAN_URL_SCALING : ℚ := 3.865

/-- JS Math.round: round half toward positive infinity. -/
def jsMathRound (x : ℚ) : ℤ := ⌊x + 1 / 2⌋

/-- The round utility of the source: Math.round (n * 10 ^ dp) / 10 ^ dp. -/
def round (n : ℚ) (dp : ℕ := DECIMAL_POINT) : ℚ :=
  (jsMathRound (n * 10 ^ dp) : ℚ) / 10 ^ dp

/-- JS truthiness of the optional date string d.x: null, undefined and the
empty string are falsy. -/
def jsTruthyStr : Option String → Bool
  | none => false
  | some s => decide (s ≠ "")

/-- JS truthiness of the optional numeric d.value: null, undefined and 0 are
falsy. -/
def jsTruthyNum : Option ℚ → Bool
  | none => false
  | some v => decide (v ≠ 0)

/-- JS loose equality d.value == 0: false for null and undefined. -/
def jsEqZero : Option ℚ → Bool
  | none => false
  | some v => decide (v = 0)

/-- Source removeAllNulls: keep d when d.x is truthy and d.value is truthy or
loosely equal to 0. -/
def removeAllNulls (dv : List DataValue) : List DataValue :=
  dv.filter fun d => jsTruthyStr d.x && (jsTruthyNum d.value || jsEqZero d.value)

/-- Source sortDataValues: Array.prototype.sort with the comparator
fromDateStr a.x - fromDateStr b.x.  JS sort is stable, so this is a stable
sort ascending by parsed timestamp; it is modelled by insertion sort, which
is stable for this total preorder. -/
def sortDataValues (fromDateStr : String → ℚ) (dv : List DataValue) : List DataValue :=
  dv.insertionSort fun a b => fromDateStr (a.x.getD "") ≤ fromDateStr (b.x.getD "")

/-- Source findExtremesX: fold min and max of the parsed dates starting from
the Infinity sentinels. -/
def findExtremesX (fromDateStr : String → ℚ) (arr : List DataValue) : ENum × ENum :=
  arr.foldl
    (fun mm el =>
      (min mm.1 (qe (fromDateStr (el.x.getD ""))), max mm.2 (qe (fromDateStr (el.x.getD "")))))
    ((⊤ : ENum), (⊥ : ENum))

/-- Source getMovements: movement k (for k+1 < n) takes order and x of the
later point and the rounded absolute difference of the two values, with a
fresh NORMAL status. -/
def getMovements (xdata : List DataValue) : List DataValue :=
  (List.range (xdata.length - 1)).map fun k =>
    { order := (xdata.getD (k + 1) default).order
      x := (xdata.getD (k + 1) default).x
      value := some (round |vOf (xdata.getD (k + 1) default) - vOf (xdata.getD k default)|)
      status := DataStatus.NORMAL }

/-- Source calculateMedian: sort ascending, take the middle element or the
mean of the two middle elements; 0 on an empty array. -/
def calculateMedian (arr : List ℚ) : ℚ :=
  let s := arr.insertionSort (· ≤ ·)
  let n := arr.length
  if n = 0 then 0
  else if n % 2 ≠ 0 then s.getD (n / 2) 0
  else (s.getD (n / 2 - 1) 0 + s.getD (n / 2) 0) / 2

/-- Source calculateLimits: mean, mean movement (denominator floored at 1),
natural process limits, range limit and quarter markers, each rounded to two
decimals.  The median-based variants sit behind the disabled flags. -/
def calculateLimits (xdata : List DataValue) : LimitValues :=
  let movements := getMovements xdata
  let avgX :=
    cond USE_MEDIAN_AVG (calculateMedian (xdata.map vOf))
      (xdata.foldl (fun a b => a + vOf b) 0 / xdata.length)
  let avgMovement :=
    cond USE_MEDIAN_MR (calculateMedian (movements.map vOf))
      (movements.foldl (fun a b => a + vOf b) 0 / max movements.length 1)
  let delta := cond USE_MEDIAN_MR MEDIAN_NPL_SCALING NPL_SCALING * avgMovement
  let UNPL := avgX + delta
  let LNPL := avgX - delta
  let URL := cond USE_MEDIAN_MR MEDIAN_URL_SCALING URL_SCALING * avgMovement
  let lowerQuartile := (LNPL + avgX) / 2
  let upperQuartile := (UNPL + avgX) / 2
  { avgX := round avgX
    avgMovement := round avgMovement
    UNPL := round UNPL
    LNPL := round LNPL
    URL := round URL
    lowerQuartile := round lowerQuartile
    upperQuartile := round upperQuartile }

/-- Set the status of every index in [a, b] to s; j is the index of the head
of the remaining list.  This embeds the inner marking for-loops. -/
def markRange (a b : ℕ) (s : DataStatus) : ℕ → List DataValue → List DataValue
  | _, [] => []
  | j, d :: rest =>
      (if a ≤ j ∧ j ≤ b then { d with status := s } else d) :: markRange a b s (j + 1) rest

/-- Mask update of checkRunOfEight at index i: set bit (i mod 8) when the
value is strictly above avg, else clear it through the 32-bit complement. -/
def maskUpd (data : List DataValue) (avg : ℚ) (i mask : ℕ) : ℕ :=
  if vOf (data.getD i default) > avg then mask ||| 1 <<< (i % 8)
  else mask &&& (4294967295 ^^^ 1 <<< (i % 8))

/-- Priming loop of checkRunOfEight over the first m indices (m = 7 in the
source): bits are only set, never cleared. -/
def primeMaskAux (data : List DataValue) (avg : ℚ) (m : ℕ) : ℕ :=
  (List.range m).foldl
    (fun mask i => if vOf (data.getD i default) > avg then mask ||| 1 <<< (i % 8) else mask) 0

/-- Main loop of checkRunOfEight from index i on, with explicit fuel: update
the mask, and when it is all-zeros or all-ones mark indices i-7..i. -/
def roLoop (avg : ℚ) : ℕ → ℕ → ℕ → List DataValue → List DataValue
  | 0, _, _, data => data
  | fuel + 1, i, mask, data =>
      if i < data.length then
        roLoop avg fuel (i + 1) (maskUpd data avg i mask)
          (if maskUpd data avg i mask = 0 ∨ maskUpd data avg i mask = 255 then
            markRange (i - 7) i DataStatus.RUN_OF_EIGHT_EXCEPTION 0 data
          else data)
      else data

/-- Source checkRunOfEight: no-op below 8 points, else prime the mask on
indices 0..6 and run the marking loop from index 7. -/
def checkRunOfEight (data : List DataValue) (avg : ℚ) : List DataValue :=
  if data.length < 8 then data
  else roLoop avg data.length 7 (primeMaskAux data avg 7) data

/-- Counter update of checkFourNearLimit for one incoming value: below wins
over above in the else-if chain of the source. -/
def fnlAdd (lq uq : ℚ) (p : ℤ × ℤ) (v : ℚ) : ℤ × ℤ :=
  if v < lq then (p.1 + 1, p.2) else if v > uq then (p.1, p.2 + 1) else p

/-- Counter downdate of checkFourNearLimit for the value leaving the window. -/
def fnlSub (lq uq : ℚ) (p : ℤ × ℤ) (v : ℚ) : ℤ × ℤ :=
  if v < lq then (p.1 - 1, p.2) else if v > uq then (p.1, p.2 - 1) else p

/-- Main loop of checkFourNearLimit from index i on, with explicit fuel: add
the incoming contribution, mark indices i-3..i when a counter reaches 3, then
subtract the contribution of index i-3 (add, test, subtract, in that order,
as in the source). -/
def fnlLoop (lq uq : ℚ) : ℕ → ℕ → ℤ × ℤ → List DataValue → List DataValue
  | 0, _, _, data => data
  | fuel + 1, i, p, data =>
      if i < data.length then
        let p1 := fnlAdd lq uq p (vOf (data.getD i default))
        let data1 :=
          if 3 ≤ p1.1 ∨ 3 ≤ p1.2 then
            markRange (i - 3) i DataStatus.FOUR_NEAR_LIMIT_EXCEPTION 0 data
          else data
        fnlLoop lq uq fuel (i + 1) (fnlSub lq uq p1 (vOf (data1.getD (i - 3) default))) data1
      else data

/-- Source checkFourNearLimit: no-op below 4 points, else prime the two
counters on indices 0..2 and run the marking loop from index 3. -/
def checkFourNearLimit (data : List DataValue) (lowerQuartile upperQuartile : ℚ) :
    List DataValue :=
  if data.length < 4 then data
  else
    fnlLoop lowerQuartile upperQuartile data.length 3
      ((List.range 3).foldl
        (fun p i => fnlAdd lowerQuartile upperQuartile p (vOf (data.getD i default))) (0, 0))
      data

/-- Source checkOutsideLimit: stateless per-point marking with the strict
comparisons value < lowerLimit and value > upperLimit. -/
def checkOutsideLimit (data : List DataValue) (lowerLimit upperLimit : ℚ) : List DataValue :=
  data.map fun dv =>
    if vOf dv < lowerLimit then { dv with status := DataStatus.NPL_EXCEPTION }
    else if vOf dv > upperLimit then { dv with status := DataStatus.NPL_EXCEPTION }
    else dv

/-- Source computeXmrStats: clean, sort, compute limits, run the three checks
in order on the value series, run the outside check on the movement series,
and assemble chart bounds; degenerate sentinel result on an empty cleaned
series. -/
def computeXmrStats (fromDateStr : String → ℚ) (data : List DataValue) : Stats :=
  let tableData := sortDataValues fromDateStr (removeAllNulls data)
  let ex := findExtremesX fromDateStr tableData
  let stats0 : Stats :=
    { xchartMin := (⊤ : ENum), xchartMax := (⊥ : ENum), mrchartMax := (⊥ : ENum),
      lineValues := [], xdataPerRange := [], movementsPerRange := [] }
  if tableData.length = 0 then stats0
  else
    let L := calculateLimits tableData
    let lv : LineValueType :=
      { xLeft := ex.1, xRight := ex.2, avgX := L.avgX, avgMovement := some L.avgMovement,
        UNPL := some L.UNPL, LNPL := some L.LNPL, URL := some L.URL,
        lowerQuartile := some L.lowerQuartile, upperQuartile := some L.upperQuartile }
    let xmin1 := min stats0.xchartMin (qe L.LNPL)
    let xmax1 := max stats0.xchartMax (qe L.UNPL)
    let mrmax1 := max stats0.mrchartMax (qe L.URL)
    let t0 := tableData.map fun dv => { dv with status := DataStatus.NORMAL }
    let t1 := checkRunOfEight t0 L.avgX
    let t2 := checkFourNearLimit t1 L.lowerQuartile L.upperQuartile
    let t3 := checkOutsideLimit t2 L.LNPL L.UNPL
    let movements := (getMovements t3).map fun dv => { dv with status := DataStatus.NORMAL }
    let m1 := checkOutsideLimit movements 0 L.URL
    let xmm :=
      (removeAllNulls t3).foldl
        (fun (mm : ENum × ENum) dv =>
          (if qe (vOf dv) < mm.1 then qe (vOf dv) else mm.1,
           if qe (vOf dv) > mm.2 then qe (vOf dv) else mm.2))
        (xmin1, xmax1)
    let mrmax2 := m1.foldl (fun acc dv => if qe (vOf dv) > acc then qe (vOf dv) else acc) mrmax1
    { xchartMin := xmm.1, xchartMax := xmm.2, mrchartMax := mrmax2,
      lineValues := [lv], xdataPerRange := [t3], movementsPerRange := [m1] }

/-! Spec-side definitions: quantities written from the words of the
specification, to be compared with the embedded source functions. -/

/-- Arithmetic mean of the values of a series (spec wording for the mean). -/
def meanOf (xdata : List DataValue) : ℚ := (xdata.map vOf).sum / xdata.length

/-- Arithmetic mean of the movement values with the denominator floored at 1
(spec wording for meanMovement). -/
def meanMovementOf (xdata : List DataValue) : ℚ :=
  ((getMovements xdata).map vOf).sum / max (getMovements xdata).length 1

/-- The order, x and value fields of a point; everything except the mutable
status. -/
def dvCore (d : DataValue) : ℤ × Option String × Option ℚ := (d.order, d.x, d.value)

/-- Whether the value at index j is strictly above the comparison mean. -/
def aboveB (data : List DataValue) (avg : ℚ) (j : ℕ) : Bool :=
  decide (vOf (data.getD j default) > avg)

/-- The unique index congruent to k mod 8 in the window of the 8 most recent
indices ending at i (defined for 7 <= i and k < 8). -/
def winJ (i k : ℕ) : ℕ := i - (i - k) % 8

/-- Mask correctness after processing index i: below 256, and bit k holds the
above-mean flag of the window index congruent to k. -/
def maskOk (data : List DataValue) (avg : ℚ) (i mask : ℕ) : Prop :=
  mask < 256 ∧ ∀ k, k < 8 → mask.testBit k = aboveB data avg (winJ i k)

/-- Mask precondition on entry to loop iteration i: all bits except the one
about to be overwritten carry the flags of the previous window. -/
def maskPre (data : List DataValue) (avg : ℚ) (i mask : ℕ) : Prop :=
  mask < 256 ∧ ∀ k, k < 8 → k ≠ i % 8 → mask.testBit k = aboveB data avg (winJ (i - 1) k)

/-- The 8-point window ending at t is uniform: all strictly above the mean,
or none strictly above it. -/
def uniformA (data : List DataValue) (avg : ℚ) (t : ℕ) : Prop :=
  (∀ k, k < 8 → aboveB data avg (t - 7 + k) = true) ∨
    (∀ k, k < 8 → aboveB data avg (t - 7 + k) = false)

/-- The rolling mask as described by the specification of Rule A: bit
(i mod 8) is set when point i is strictly above the mean; during the priming
indices 0..6 bits are only set, never cleared; from index 7 on the bit is set
or cleared. -/
def claimMaskA (data : List DataValue) (avg : ℚ) : ℕ → ℕ
  | 0 => if vOf (data.getD 0 default) > avg then 1 <<< (0 % 8) else 0
  | i + 1 =>
      if vOf (data.getD (i + 1) default) > avg then
        claimMaskA data avg i ||| 1 <<< ((i + 1) % 8)
      else if i + 1 < 7 then claimMaskA data avg i
      else claimMaskA data avg i &&& (4294967295 ^^^ 1 <<< ((i + 1) % 8))

/-- Contribution of index j to the below-marker counter of Rule B. -/
def indBelow (data : List DataValue) (lq : ℚ) (j : ℕ) : ℤ :=
  if vOf (data.getD j default) < lq then 1 else 0

/-- Contribution of index j to the above-marker counter as the code computes
it: the else-if chain gives the below test priority. -/
def indAboveCode (data : List DataValue) (lq uq : ℚ) (j : ℕ) : ℤ :=
  if vOf (data.getD j default) < lq then 0
  else if vOf (data.getD j default) > uq then 1 else 0

/-- Contribution of index j to the above-marker counter as the specification
words it: strictly above the upper quarter marker. -/
def indAbove (data : List DataValue) (uq : ℚ) (j : ℕ) : ℤ :=
  if vOf (data.getD j default) > uq then 1 else 0

/-- Number of points strictly below the lower quarter marker among the three
indices t-3, t-2, t-1 (the counter state entering iteration t). -/
def below3 (data : List DataValue) (lq : ℚ) (t : ℕ) : ℤ :=
  indBelow data lq (t - 3) + indBelow data lq (t - 2) + indBelow data lq (t - 1)

/-- Code-side above counter over the three indices t-3, t-2, t-1. -/
def above3 (data : List DataValue) (lq uq : ℚ) (t : ℕ) : ℤ :=
  indAboveCode data lq uq (t - 3) + indAboveCode data lq uq (t - 2) +
    indAboveCode data lq uq (t - 1)

/-- Number of points strictly below the lower quarter marker in the 4-point
window ending at t. -/
def below4 (data : List DataValue) (lq : ℚ) (t : ℕ) : ℤ :=
  indBelow data lq (t - 3) + indBelow data lq (t - 2) + indBelow data lq (t - 1) +
    indBelow data lq t

/-- Code-side above counter over the 4-point window ending at t. -/
def above4Code (data : List DataValue) (lq uq : ℚ) (t : ℕ) : ℤ :=
  indAboveCode data lq uq (t - 3) + indAboveCode data lq uq (t - 2) +
    indAboveCode data lq uq (t - 1) + indAboveCode data lq uq t

/-- Number of points strictly above the upper quarter marker in the 4-point
window ending at t (spec wording). -/
def above4 (data : List DataValue) (uq : ℚ) (t : ℕ) : ℤ :=
  indAbove data uq (t - 3) + indAbove data uq (t - 2) + indAbove data uq (t - 1) +
    indAbove data uq t

/-! Basic lemmas about the utility functions. -/

theorem foldl_add_vOf (l : List DataValue) (a : ℚ) :
    l.foldl (fun x d => x + vOf d) a = a + (l.map vOf).sum := by
  induction l generalizing a with
  | nil => simp
  | cons d t ih => simp [List.foldl_cons, ih]; ring

theorem jsMathRound_intCast (m : ℤ) : jsMathRound (m : ℚ) = m := by
  unfold jsMathRound
  rw [Int.floor_int_add]
  norm_num

theorem round_eq (n : ℚ) : round n = (⌊n * 100 + 1 / 2⌋ : ℚ) / 100 := by
  unfold round jsMathRound DECIMAL_POINT
  norm_num

theorem round_lb (n : ℚ) : n - 1 / 200 < round n := by
  rw [round_eq]
  have h := Int.sub_one_lt_floor (n * 100 + 1 / 2)
  linarith

theorem round_ub (n : ℚ) : round n ≤ n + 1 / 200 := by
  rw [round_eq]
  have h := Int.floor_le (n * 100 + 1 / 2)
  linarith

theorem round_mono {a b : ℚ} (h : a ≤ b) : round a ≤ round b := by
  rw [round_eq, round_eq]
  have hf : (⌊a * 100 + 1 / 2⌋ : ℚ) ≤ (⌊b * 100 + 1 / 2⌋ : ℚ) := by
    exact_mod_cast Int.floor_le_floor (by linarith)
  exact (div_le_div_iff_of_pos_right (by norm_num : (0:ℚ) < 100)).mpr hf

theorem round_zero : round 0 = 0 := by
  rw [round_eq]
  norm_num

theorem round_nonneg {x : ℚ} (h : 0 ≤ x) : 0 ≤ round x := by
  have := round_mono h
  rwa [round_zero] at this

theorem round_idem (n : ℚ) : round (round n) = round n := by
  rw [round_eq n, round_eq]
  rw [div_mul_cancel₀ _ (by norm_num : (100:ℚ) ≠ 0)]
  rw [Int.floor_int_add]
  norm_num

theorem getD_map_range {α : Type} (g : ℕ → α) (m i : ℕ) (d : α) :
    ((List.range m).map g).getD i d = if i < m then g i else d := by
  by_cases h : i < m
  · rw [List.getD_eq_getElem?_getD, List.getElem?_map, List.getElem?_range h]
    simp [h]
  · rw [List.getD_eq_getElem?_getD, List.getElem?_eq_none (by simpa using le_of_not_lt h)]
    simp [h]

theorem length_getMovements (xdata : List DataValue) :
    (getMovements xdata).length = xdata.length - 1 := by
  simp [getMovements]

theorem getD_getMovements (xdata : List DataValue) (i : ℕ) (h : i + 1 < xdata.length) :
    (getMovements xdata).getD i default =
      { order := (xdata.getD (i + 1) default).order
        x := (xdata.getD (i + 1) default).x
        value := some (round |vOf (xdata.getD (i + 1) default) - vOf (xdata.getD i default)|)
        status := DataStatus.NORMAL } := by
  rw [getMovements, getD_map_range, if_pos (by omega)]

theorem vOf_mem_getMovements {xdata : List DataValue} {m : DataValue}
    (h : m ∈ getMovements xdata) : 0 ≤ vOf m := by
  rw [getMovements, List.mem_map] at h
  obtain ⟨k, _, rfl⟩ := h
  simp only [vOf, Option.getD_some]
  exact round_nonneg (abs_nonneg _)

/-- The fields of calculateLimits, written with the spec-side mean and mean
movement; this is shared by several claim theorems. -/
theorem calculateLimits_def (xdata : List DataValue) :
    calculateLimits xdata =
      { avgX := round (meanOf xdata)
        avgMovement := round (meanMovementOf xdata)
        UNPL := round (meanOf xdata + NPL_SCALING * meanMovementOf xdata)
        LNPL := round (meanOf xdata - NPL_SCALING * meanMovementOf xdata)
        URL := round (URL_SCALING * meanMovementOf xdata)
        lowerQuartile :=
          round ((meanOf xdata - NPL_SCALING * meanMovementOf xdata + meanOf xdata) / 2)
        upperQuartile :=
          round ((meanOf xdata + NPL_SCALING * meanMovementOf xdata + meanOf xdata) / 2) } := by
  unfold calculateLimits meanOf meanMovementOf USE_MEDIAN_AVG USE_MEDIAN_MR
  simp only [Bool.cond_false, foldl_add_vOf, zero_add]

theorem meanMovementOf_nonneg (xdata : List DataValue) : 0 ≤ meanMovementOf xdata := by
  unfold meanMovementOf
  apply div_nonneg
  · exact List.sum_nonneg (by
      intro x hx
      rw [List.mem_map] at hx
      obtain ⟨m, hm, rfl⟩ := hx
      exact vOf_mem_getMovements hm)
  · positivity

theorem LNPL_le_UNPL (xdata : List DataValue) :
    (calculateLimits xdata).LNPL ≤ (calculateLimits xdata).UNPL := by
  rw [calculateLimits_def]
  apply round_mono
  have h := meanMovementOf_nonneg xdata
  have hs : (0:ℚ) ≤ NPL_SCALING := by norm_num [NPL_SCALING]
  nlinarith

/-! Claim C4: the LimitSet equations of calculateLimits. -/

/-- C4, confirmed: for a non-empty cleaned series, calculateLimits returns
the arithmetic mean, the mean movement with denominator floored at 1 (0 for a
single-point series), the 2.66-scaled natural limits, the 3.268-scaled range
limit and the two quarter markers, each rounded to 2 decimals. -/
theorem C4_calculateLimits (xdata : List DataValue) (_h : xdata ≠ []) :
    (calculateLimits xdata).avgX = round (meanOf xdata) ∧
    (calculateLimits xdata).avgMovement = round (meanMovementOf xdata) ∧
    (xdata.length = 1 → (calculateLimits xdata).avgMovement = 0) ∧
    (calculateLimits xdata).UNPL = round (meanOf xdata + 2.66 * meanMovementOf xdata) ∧
    (calculateLimits xdata).LNPL = round (meanOf xdata - 2.66 * meanMovementOf xdata) ∧
    (calculateLimits xdata).URL = round (3.268 * meanMovementOf xdata) ∧
    (calculateLimits xdata).lowerQuartile =
      round ((meanOf xdata - 2.66 * meanMovementOf xdata + meanOf xdata) / 2) ∧
    (calculateLimits xdata).upperQuartile =
      round ((meanOf xdata + 2.66 * meanMovementOf xdata + meanOf xdata) / 2) := by
  rw [calculateLimits_def]
  refine ⟨rfl, rfl, ?_, rfl, rfl, rfl, rfl, rfl⟩
  intro h1
  have hm : meanMovementOf xdata = 0 := by
    unfold meanMovementOf
    rw [getMovements, h1]
    simp
  simp [hm, round_zero]

/-- Witness for C4 at the concrete two-point series with values 0 and 10. -/
theorem C4_witness :
    ([⟨0, some "a", some 0, DataStatus.NORMAL⟩,
      ⟨1, some "b", some 10, DataStatus.NORMAL⟩] : List DataValue) ≠ [] ∧
    (calculateLimits
        [⟨0, some "a", some 0, DataStatus.NORMAL⟩,
         ⟨1, some "b", some 10, DataStatus.NORMAL⟩]).UNPL =
      round
        (meanOf
            [⟨0, some "a", some 0, DataStatus.NORMAL⟩,
             ⟨1, some "b", some 10, DataStatus.NORMAL⟩] +
          2.66 *
            meanMovementOf
              [⟨0, some "a", some 0, DataStatus.NORMAL⟩,
               ⟨1, some "b", some 10, DataStatus.NORMAL⟩]) :=
  ⟨by decide,
   (C4_calculateLimits
      [⟨0, some "a", some 0, DataStatus.NORMAL⟩,
       ⟨1, some "b", some 10, DataStatus.NORMAL⟩] (by decide)).2.2.2.1⟩

/-! Claim C5: the movement series.  The code stores the rounded absolute
difference, not the raw absolute difference the claim states, so the claim is
corrected. -/

/-- C5, counterexample: for source values 0 and 1/1000 the claim predicts a
movement value of |1/1000 - 0| = 1/1000, but the code stores the 2-decimal
rounding, which is 0. -/
theorem C5_counterexample :
    getMovements
        [⟨0, some "2024-01-01", some 0, DataStatus.NORMAL⟩,
         ⟨1, some "2024-01-02", some (1 / 1000), DataStatus.NORMAL⟩] =
      [⟨1, some "2024-01-02", some 0, DataStatus.NORMAL⟩] ∧
    ((1 : ℚ) / 1000 ≠ 0) := by
  constructor
  · with_unfolding_all decide
  · norm_num

/-- C5, amended: getMovements emits exactly max(n-1, 0) movements; movement i
carries the order and x of the later source point, value equal to the
absolute difference of the two source values ROUNDED to 2 decimal places,
and a fresh Normal status. -/
theorem C5_getMovements (xdata : List DataValue) :
    (getMovements xdata).length = xdata.length - 1 ∧
    ∀ i, i + 1 < xdata.length →
      (getMovements xdata).getD i default =
        { order := (xdata.getD (i + 1) default).order
          x := (xdata.getD (i + 1) default).x
          value := some (round |vOf (xdata.getD (i + 1) default) - vOf (xdata.getD i default)|)
          status := DataStatus.NORMAL } :=
  ⟨length_getMovements xdata, fun i h => getD_getMovements xdata i h⟩

/-- Witness for C5 at the two-point series with values 0 and 10. -/
theorem C5_witness :
    (getMovements
        [⟨0, some "a", some 0, DataStatus.NORMAL⟩,
         ⟨1, some "b", some 10, DataStatus.NORMAL⟩]).getD 0 default =
      { order := (([⟨0, some "a", some 0, DataStatus.NORMAL⟩,
            ⟨1, some "b", some 10, DataStatus.NORMAL⟩] : List DataValue).getD 1 default).order
        x := (([⟨0, some "a", some 0, DataStatus.NORMAL⟩,
            ⟨1, some "b", some 10, DataStatus.NORMAL⟩] : List DataValue).getD 1 default).x
        value := some (round
          |vOf (([⟨0, some "a", some 0, DataStatus.NORMAL⟩,
               ⟨1, some "b", some 10, DataStatus.NORMAL⟩] : List DataValue).getD 1 default) -
            vOf (([⟨0, some "a", some 0, DataStatus.NORMAL⟩,
               ⟨1, some "b", some 10, DataStatus.NORMAL⟩] : List DataValue).getD 0 default)|)
        status := DataStatus.NORMAL } :=
  (C5_getMovements
      [⟨0, some "a", some 0, DataStatus.NORMAL⟩,
       ⟨1, some "b", some 10, DataStatus.NORMAL⟩]).2 0 (by decide)

/-! Claim C7: rounding semantics.  JS Math.round rounds half toward positive
infinity, not away from zero, so the claim is corrected for negative ties. -/

/-- C7, counterexample: the positive tie 1/40 = 0.025 rounds to 0.03, away
from zero, but the negative tie -1/40 = -0.025 rounds to -0.02, toward zero;
rounding half away from zero would give -0.03. -/
theorem C7_counterexample :
    round ((1 : ℚ) / 40) = 3 / 100 ∧
    round (-(1 : ℚ) / 40) = -(1 / 50) ∧
    round (-(1 : ℚ) / 40) ≠ -(3 / 100) := by
  refine ⟨by with_unfolding_all decide, by with_unfolding_all decide,
    by with_unfolding_all decide⟩

/-- C7, amended: round n is the multiple of 1/100 nearest to n with ties at
the second decimal rounded toward positive infinity (so away from zero only
for positive inputs); re-rounding is a no-op; and every calculateLimits field
is the rounding, under this rule, of its unrounded value. -/
theorem C7_round :
    (∀ n : ℚ,
      (∃ m : ℤ, round n = (m : ℚ) / 100) ∧
      n - 1 / 200 < round n ∧ round n ≤ n + 1 / 200 ∧
      round (round n) = round n) ∧
    (∀ xdata : List DataValue, xdata ≠ [] →
      calculateLimits xdata =
        { avgX := round (meanOf xdata)
          avgMovement := round (meanMovementOf xdata)
          UNPL := round (meanOf xdata + NPL_SCALING * meanMovementOf xdata)
          LNPL := round (meanOf xdata - NPL_SCALING * meanMovementOf xdata)
          URL := round (URL_SCALING * meanMovementOf xdata)
          lowerQuartile :=
            round ((meanOf xdata - NPL_SCALING * meanMovementOf xdata + meanOf xdata) / 2)
          upperQuartile :=
            round ((meanOf xdata + NPL_SCALING * meanMovementOf xdata + meanOf xdata) / 2) }) := by
  constructor
  · intro n
    exact ⟨⟨jsMathRound (n * 10 ^ DECIMAL_POINT), by rw [round_eq]; rfl⟩,
      round_lb n, round_ub n, round_idem n⟩
  · intro xdata _
    exact calculateLimits_def xdata

/-- Witness for C7 at n = 1/3 and the concrete one-point series. -/
theorem C7_witness :
    ((1 : ℚ) / 3 - 1 / 200 < round ((1 : ℚ) / 3) ∧
      round (round ((1 : ℚ) / 3)) = round ((1 : ℚ) / 3)) ∧
    ([⟨0, some "a", some 5, DataStatus.NORMAL⟩] : List DataValue) ≠ [] ∧
    calculateLimits [⟨0, some "a", some 5, DataStatus.NORMAL⟩] =
      { avgX := round (meanOf [⟨0, some "a", some 5, DataStatus.NORMAL⟩])
        avgMovement := round (meanMovementOf [⟨0, some "a", some 5, DataStatus.NORMAL⟩])
        UNPL := round (meanOf [⟨0, some "a", some 5, DataStatus.NORMAL⟩] +
          NPL_SCALING * meanMovementOf [⟨0, some "a", some 5, DataStatus.NORMAL⟩])
        LNPL := round (meanOf [⟨0, some "a", some 5, DataStatus.NORMAL⟩] -
          NPL_SCALING * meanMovementOf [⟨0, some "a", some 5, DataStatus.NORMAL⟩])
        URL := round (URL_SCALING * meanMovementOf [⟨0, some "a", some 5, DataStatus.NORMAL⟩])
        lowerQuartile := round ((meanOf [⟨0, some "a", some 5, DataStatus.NORMAL⟩] -
          NPL_SCALING * meanMovementOf [⟨0, some "a", some 5, DataStatus.NORMAL⟩] +
          meanOf [⟨0, some "a", some 5, DataStatus.NORMAL⟩]) / 2)
        upperQuartile := round ((meanOf [⟨0, some "a", some 5, DataStatus.NORMAL⟩] +
          NPL_SCALING * meanMovementOf [⟨0, some "a", some 5, DataStatus.NORMAL⟩] +
          meanOf [⟨0, some "a", some 5, DataStatus.NORMAL⟩]) / 2) } :=
  ⟨⟨(C7_round.1 (1 / 3)).2.1, (C7_round.1 (1 / 3)).2.2.2⟩,
   by decide, C7_round.2 [⟨0, some "a", some 5, DataStatus.NORMAL⟩] (by decide)⟩

/-! Claim C8: degenerate result on an empty cleaned series. -/

/-- C8, confirmed: when the cleaned series is empty, computeXmrStats raises
no error and returns the sentinel Stats: xchartMin = plus infinity, xchartMax
and mrchartMax = minus infinity, and all three lists empty (in particular no
LimitSet entry). -/
theorem C8_empty (fromDateStr : String → ℚ) (data : List DataValue)
    (h : removeAllNulls data = []) :
    computeXmrStats fromDateStr data =
      { xchartMin := (⊤ : ENum), xchartMax := (⊥ : ENum), mrchartMax := (⊥ : ENum),
        lineValues := [], xdataPerRange := [], movementsPerRange := [] } := by
  unfold computeXmrStats sortDataValues
  rw [h]
  simp [List.insertionSort]

/-- Witness for C8 at a one-row input whose x is null. -/
theorem C8_witness :
    removeAllNulls [⟨0, none, some 3, DataStatus.NORMAL⟩] = [] ∧
    computeXmrStats (fun _ => 0) [⟨0, none, some 3, DataStatus.NORMAL⟩] =
      { xchartMin := (⊤ : ENum), xchartMax := (⊥ : ENum), mrchartMax := (⊥ : ENum),
        lineValues := [], xdataPerRange := [], movementsPerRange := [] } :=
  ⟨by decide, C8_empty (fun _ => 0) [⟨0, none, some 3, DataStatus.NORMAL⟩] (by decide)⟩

/-! Lemmas about markRange, the embedding of the inner marking loops. -/

theorem length_markRange (a b : ℕ) (s : DataStatus) (l : List DataValue) :
    ∀ j, (markRange a b s j l).length = l.length := by
  induction l with
  | nil => intro j; rfl
  | cons d t ih => intro j; simp [markRange, ih]

theorem status_getD_markRange (a b : ℕ) (s : DataStatus) (l : List DataValue) :
    ∀ j k, ((markRange a b s j l).getD k default).status =
      if k < l.length ∧ a ≤ j + k ∧ j + k ≤ b then s else (l.getD k default).status := by
  induction l with
  | nil => intro j k; simp [markRange]
  | cons d t ih =>
    intro j k
    cases k with
    | zero =>
      simp only [markRange, List.getD_cons_zero, List.length_cons]
      by_cases h : a ≤ j ∧ j ≤ b
      · rw [if_pos h, if_pos (by omega)]
      · rw [if_neg h, if_neg (by omega)]
    | succ k =>
      simp only [markRange, List.getD_cons_succ, List.length_cons]
      rw [ih (j + 1) k]
      have hiff : (k < t.length ∧ a ≤ j + 1 + k ∧ j + 1 + k ≤ b) ↔
          (k + 1 < t.length + 1 ∧ a ≤ j + (k + 1) ∧ j + (k + 1) ≤ b) := by omega
      simp only [hiff]

theorem vOf_getD_markRange (a b : ℕ) (s : DataStatus) (l : List DataValue) :
    ∀ j k, vOf ((markRange a b s j l).getD k default) = vOf (l.getD k default) := by
  induction l with
  | nil => intro j k; simp [markRange]
  | cons d t ih =>
    intro j k
    cases k with
    | zero =>
      simp only [markRange, List.getD_cons_zero]
      split <;> rfl
    | succ k =>
      simp only [markRange, List.getD_cons_succ]
      exact ih (j + 1) k

theorem map_dvCore_markRange (a b : ℕ) (s : DataStatus) (l : List DataValue) :
    ∀ j, (markRange a b s j l).map dvCore = l.map dvCore := by
  induction l with
  | nil => intro j; rfl
  | cons d t ih =>
    intro j
    simp only [markRange, List.map_cons, ih]
    congr 1
    split <;> rfl

theorem status_mem_markRange {a b : ℕ} {s : DataStatus} {l : List DataValue} :
    ∀ {j} {pt}, pt ∈ markRange a b s j l → pt.status = s ∨ ∃ d ∈ l, pt.status = d.status := by
  induction l with
  | nil => intro j pt h; simp [markRange] at h
  | cons d t ih =>
    intro j pt h
    simp only [markRange, List.mem_cons] at h
    rcases h with h | h
    · subst h
      split
      · exact Or.inl rfl
      · exact Or.inr ⟨d, List.mem_cons_self d t, rfl⟩
    · rcases ih h with h1 | ⟨e, he, h2⟩
      · exact Or.inl h1
      · exact Or.inr ⟨e, List.mem_cons_of_mem d he, h2⟩

theorem aboveB_markRange (a b : ℕ) (s : DataStatus) (l : List DataValue) (avg : ℚ)
    (j k : ℕ) : aboveB (markRange a b s j l) avg k = aboveB l avg k := by
  unfold aboveB
  rw [vOf_getD_markRange]

/-! Bit-level lemmas for the Rule A rolling mask. -/

theorem testBit_setBit (m k j : ℕ) :
    (m ||| 1 <<< k).testBit j = (m.testBit j || decide (k = j)) := by
  rw [Nat.testBit_lor, Nat.one_shiftLeft, Nat.testBit_two_pow]

theorem testBit_clearBit (m k j : ℕ) (hj : j < 32) :
    (m &&& (4294967295 ^^^ 1 <<< k)).testBit j = (m.testBit j && !(decide (k = j))) := by
  rw [Nat.testBit_land, Nat.testBit_xor, Nat.one_shiftLeft, Nat.testBit_two_pow]
  rw [(by norm_num : (4294967295 : ℕ) = 2 ^ 32 - 1), Nat.testBit_two_pow_sub_one]
  cases h : m.testBit j <;> cases h2 : decide (k = j) <;> simp [hj]

theorem setBit_lt {m : ℕ} (k : ℕ) (hm : m < 256) (hk : k < 8) : m ||| 1 <<< k < 256 := by
  have h1 : (1 <<< k : ℕ) < 2 ^ 8 := by
    rw [Nat.one_shiftLeft]
    exact Nat.pow_lt_pow_right (by norm_num) hk
  have h2 : m < 2 ^ 8 := by norm_num at *; omega
  have := Nat.or_lt_two_pow h2 h1
  omega

theorem clearBit_lt {m : ℕ} (M : ℕ) (hm : m < 256) : m &&& M < 256 :=
  lt_of_le_of_lt Nat.and_le_left hm

theorem maskUpd_lt (data : List DataValue) (avg : ℚ) (i : ℕ) {mask : ℕ} (hm : mask < 256) :
    maskUpd data avg i mask < 256 := by
  unfold maskUpd
  split
  · exact setBit_lt _ hm (Nat.mod_lt _ (by norm_num))
  · exact clearBit_lt _ hm

theorem testBit_maskUpd_self (data : List DataValue) (avg : ℚ) (i mask : ℕ) :
    (maskUpd data avg i mask).testBit (i % 8) = aboveB data avg i := by
  unfold maskUpd aboveB
  split <;> rename_i h
  · rw [testBit_setBit, decide_eq_true h]
    simp
  · rw [testBit_clearBit _ _ _ (by omega), decide_eq_false h]
    simp

theorem testBit_maskUpd_other (data : List DataValue) (avg : ℚ) (i mask k : ℕ)
    (hk : k < 32) (hne : k ≠ i % 8) :
    (maskUpd data avg i mask).testBit k = mask.testBit k := by
  unfold maskUpd
  have hne2 : ¬(i % 8 = k) := fun h => hne h.symm
  split
  · rw [testBit_setBit]
    simp [hne2]
  · rw [testBit_clearBit _ _ _ hk]
    simp [hne2]

theorem winJ_self {i : ℕ} (h : 7 ≤ i) : winJ i (i % 8) = i := by
  unfold winJ; omega

theorem winJ_pred {i k : ℕ} (h : 7 ≤ i) (hk : k < 8) (hne : k ≠ i % 8) :
    winJ (i - 1) k = winJ i k := by
  unfold winJ; omega

theorem winJ_bounds {i k : ℕ} (h : 7 ≤ i) (_hk : k < 8) :
    i - 7 ≤ winJ i k ∧ winJ i k ≤ i := by
  unfold winJ; omega

theorem winJ_of_mem {i j : ℕ} (h : 7 ≤ i) (h1 : i - 7 ≤ j) (h2 : j ≤ i) :
    winJ i (j % 8) = j := by
  unfold winJ; omega

theorem maskPre_step {data : List DataValue} {avg : ℚ} {i mask : ℕ} (h7 : 7 ≤ i)
    (h : maskPre data avg i mask) : maskOk data avg i (maskUpd data avg i mask) := by
  obtain ⟨hlt, hbits⟩ := h
  refine ⟨maskUpd_lt _ _ _ hlt, ?_⟩
  intro k hk
  by_cases hke : k = i % 8
  · subst hke
    rw [testBit_maskUpd_self, winJ_self h7]
  · rw [testBit_maskUpd_other _ _ _ _ _ (by omega) hke, hbits k hk hke, winJ_pred h7 hk hke]

theorem maskOk_toPre {data : List DataValue} {avg : ℚ} {i mask : ℕ}
    (h : maskOk data avg i mask) : maskPre data avg (i + 1) mask := by
  obtain ⟨hlt, hbits⟩ := h
  refine ⟨hlt, ?_⟩
  intro k hk _
  simpa using hbits k hk

theorem maskOk_uniform {data : List DataValue} {avg : ℚ} {i mask : ℕ} (h7 : 7 ≤ i)
    (h : maskOk data avg i mask) :
    (mask = 0 ∨ mask = 255) ↔ uniformA data avg i := by
  obtain ⟨hlt, hbits⟩ := h
  have hmem : ∀ k, k < 8 → aboveB data avg (i - 7 + k) = mask.testBit ((i - 7 + k) % 8) := by
    intro k hk
    have hj := winJ_of_mem h7 (show i - 7 ≤ i - 7 + k by omega) (show i - 7 + k ≤ i by omega)
    have hmod : (i - 7 + k) % 8 < 8 := Nat.mod_lt _ (by norm_num)
    rw [hbits _ hmod, hj]
  constructor
  · rintro (rfl | rfl)
    · right
      intro k hk
      rw [hmem k hk, Nat.zero_testBit]
    · left
      intro k hk
      rw [hmem k hk, (by norm_num : (255 : ℕ) = 2 ^ 8 - 1), Nat.testBit_two_pow_sub_one]
      simp [Nat.mod_lt]
  · intro hu
    have hhigh : ∀ b, 8 ≤ b → mask.testBit b = false := by
      intro b hb
      refine Nat.testBit_lt_two_pow (lt_of_lt_of_le hlt ?_)
      calc (256 : ℕ) = 2 ^ 8 := by norm_num
        _ ≤ 2 ^ b := Nat.pow_le_pow_right (by norm_num) hb
    have hlow : ∀ b, b < 8 → mask.testBit b = aboveB data avg (i - 7 + (winJ i b - (i - 7))) := by
      intro b hb
      obtain ⟨hb1, hb2⟩ := winJ_bounds h7 hb
      rw [hbits b hb]
      congr 1
      omega
    rcases hu with hall | hnone
    · right
      apply Nat.eq_of_testBit_eq
      intro b
      by_cases hb : b < 8
      · rw [hlow b hb, hall _ (by obtain ⟨hb1, hb2⟩ := winJ_bounds h7 hb; omega)]
        rw [(by norm_num : (255 : ℕ) = 2 ^ 8 - 1), Nat.testBit_two_pow_sub_one]
        simp [hb]
      · rw [hhigh b (by omega)]
        rw [(by norm_num : (255 : ℕ) = 2 ^ 8 - 1), Nat.testBit_two_pow_sub_one]
        simp [hb]
    · left
      apply Nat.eq_of_testBit_eq
      intro b
      by_cases hb : b < 8
      · rw [hlow b hb, hnone _ (by obtain ⟨hb1, hb2⟩ := winJ_bounds h7 hb; omega), Nat.zero_testBit]
      · rw [hhigh b (by omega), Nat.zero_testBit]

theorem primeMaskAux_spec (data : List DataValue) (avg : ℚ) :
    ∀ m, m ≤ 8 → primeMaskAux data avg m < 256 ∧
      ∀ k, k < 8 → (primeMaskAux data avg m).testBit k = (decide (k < m) && aboveB data avg k) := by
  intro m
  induction m with
  | zero =>
    intro _
    constructor
    · norm_num [primeMaskAux]
    · intro k hk
      simp [primeMaskAux, Nat.zero_testBit]
  | succ m ih =>
    intro hm
    obtain ⟨ihlt, ihbits⟩ := ih (by omega)
    have hstep : primeMaskAux data avg (m + 1) =
        if vOf (data.getD m default) > avg then primeMaskAux data avg m ||| 1 <<< (m % 8)
        else primeMaskAux data avg m := by
      unfold primeMaskAux
      rw [List.range_succ, List.foldl_append]
      simp
    have hmm : m % 8 = m := Nat.mod_eq_of_lt (by omega)
    constructor
    · rw [hstep]
      split
      · exact setBit_lt _ ihlt (by omega)
      · exact ihlt
    · intro k hk
      rw [hstep]
      split <;> rename_i ha
      · rw [testBit_setBit, ihbits k hk, hmm]
        by_cases hkm : k = m
        · subst hkm
          have haB : aboveB data avg k = true := decide_eq_true ha
          simp [haB]
        · have hmk : ¬(m = k) := fun hh => hkm hh.symm
          have hiff : (k < m + 1) ↔ (k < m) := by omega
          simp [hmk, hiff]
      · rw [ihbits k hk]
        by_cases hkm : k = m
        · subst hkm
          have haB : aboveB data avg k = false := decide_eq_false ha
          simp [haB]
        · have hiff : (k < m + 1) ↔ (k < m) := by omega
          simp [hiff]

theorem primeMask_pre (data : List DataValue) (avg : ℚ) :
    maskPre data avg 7 (primeMaskAux data avg 7) := by
  obtain ⟨hlt, hbits⟩ := primeMaskAux_spec data avg 7 (by norm_num)
  refine ⟨hlt, ?_⟩
  intro k hk hne
  rw [hbits k hk]
  have hk6 : k < 7 := by omega
  have hw : winJ (7 - 1) k = k := by unfold winJ; omega
  rw [hw]
  simp [hk6]

/-- Which points the Rule A main loop marks: a point j ends with status
RunOfEight exactly when it already had it, or some iteration t in range marks
a uniform 8-point window containing j. -/
theorem roLoop_status (avg : ℚ) : ∀ (fuel i mask : ℕ) (data : List DataValue) (j : ℕ),
    data.length ≤ i + fuel → 7 ≤ i → maskPre data avg i mask →
    (((roLoop avg fuel i mask data).getD j default).status = DataStatus.RUN_OF_EIGHT_EXCEPTION ↔
      (data.getD j default).status = DataStatus.RUN_OF_EIGHT_EXCEPTION ∨
        ∃ t, i ≤ t ∧ t < data.length ∧ t - 7 ≤ j ∧ j ≤ t ∧ uniformA data avg t) := by
  intro fuel
  induction fuel with
  | zero =>
    intro i mask data j hlen h7 hpre
    simp only [roLoop]
    constructor
    · exact Or.inl
    · rintro (h | ⟨t, ht1, ht2, _, _, _⟩)
      · exact h
      · omega
  | succ fuel ih =>
    intro i mask data j hlen h7 hpre
    by_cases hi : i < data.length
    case neg =>
      simp only [roLoop, if_neg hi]
      constructor
      · exact Or.inl
      · rintro (h | ⟨t, ht1, ht2, _, _, _⟩)
        · exact h
        · omega
    case pos =>
      simp only [roLoop, if_pos hi]
      have hOk : maskOk data avg i (maskUpd data avg i mask) := maskPre_step h7 hpre
      have hunif := maskOk_uniform h7 hOk
      by_cases hcond : maskUpd data avg i mask = 0 ∨ maskUpd data avg i mask = 255
      case pos =>
        rw [if_pos hcond]
        have hlen1 : (markRange (i - 7) i DataStatus.RUN_OF_EIGHT_EXCEPTION 0 data).length =
            data.length := length_markRange _ _ _ _ _
        have hAbove : ∀ x, aboveB (markRange (i - 7) i DataStatus.RUN_OF_EIGHT_EXCEPTION 0 data)
            avg x = aboveB data avg x := fun x => aboveB_markRange _ _ _ _ _ _ _
        have hUnifEq : ∀ t,
            uniformA (markRange (i - 7) i DataStatus.RUN_OF_EIGHT_EXCEPTION 0 data) avg t ↔
              uniformA data avg t := by
          intro t
          unfold uniformA
          simp only [hAbove]
        have hpre1 : maskPre (markRange (i - 7) i DataStatus.RUN_OF_EIGHT_EXCEPTION 0 data) avg
            (i + 1) (maskUpd data avg i mask) := by
          obtain ⟨hl, hb⟩ := maskOk_toPre hOk
          exact ⟨hl, fun k hk hne => (hb k hk hne).trans (hAbove _).symm⟩
        have hrec := ih (i + 1) (maskUpd data avg i mask)
          (markRange (i - 7) i DataStatus.RUN_OF_EIGHT_EXCEPTION 0 data) j
          (by omega) (by omega) hpre1
        rw [hrec]
        have hst : (((markRange (i - 7) i DataStatus.RUN_OF_EIGHT_EXCEPTION 0 data).getD j
              default).status = DataStatus.RUN_OF_EIGHT_EXCEPTION) ↔
            ((j < data.length ∧ i - 7 ≤ j ∧ j ≤ i) ∨
              (data.getD j default).status = DataStatus.RUN_OF_EIGHT_EXCEPTION) := by
          rw [status_getD_markRange]
          split_ifs with hcase
          · constructor
            · intro _
              exact Or.inl ⟨hcase.1, by omega, by omega⟩
            · intro _
              rfl
          · constructor
            · exact Or.inr
            · rintro (⟨h1, h2, h3⟩ | hOld)
              · exact absurd ⟨h1, by omega, by omega⟩ hcase
              · exact hOld
        have hui : uniformA data avg i := hunif.mp hcond
        constructor
        · rintro (hD | ⟨t, ht1, ht2, ht3, ht4, ht5⟩)
          · rcases hst.mp hD with ⟨hjl, hj1, hj2⟩ | hOld
            · exact Or.inr ⟨i, le_refl i, hi, hj1, hj2, hui⟩
            · exact Or.inl hOld
          · exact Or.inr ⟨t, by omega, by rwa [hlen1] at ht2, ht3, ht4, (hUnifEq t).mp ht5⟩
        · rintro (hOld | ⟨t, ht1, ht2, ht3, ht4, ht5⟩)
          · exact Or.inl (hst.mpr (Or.inr hOld))
          · by_cases hti : t = i
            · subst hti
              exact Or.inl (hst.mpr (Or.inl ⟨by omega, ht3, ht4⟩))
            · exact Or.inr ⟨t, by omega, by rwa [hlen1], ht3, ht4, (hUnifEq t).mpr ht5⟩
      case neg =>
        rw [if_neg hcond]
        have hpre1 : maskPre data avg (i + 1) (maskUpd data avg i mask) := maskOk_toPre hOk
        have hrec := ih (i + 1) (maskUpd data avg i mask) data j (by omega) (by omega) hpre1
        rw [hrec]
        have hnu : ¬uniformA data avg i := fun hu => hcond (hunif.mpr hu)
        constructor
        · rintro (h | ⟨t, ht1, ht2, ht3, ht4, ht5⟩)
          · exact Or.inl h
          · exact Or.inr ⟨t, by omega, ht2, ht3, ht4, ht5⟩
        · rintro (h | ⟨t, ht1, ht2, ht3, ht4, ht5⟩)
          · exact Or.inl h
          · have hti : t ≠ i := fun he => hnu (he ▸ ht5)
            exact Or.inr ⟨t, by omega, ht2, ht3, ht4, ht5⟩

/-- Which points checkRunOfEight marks, for a series of length at least 8. -/
theorem checkRunOfEight_status {data : List DataValue} {avg : ℚ} (h8 : 8 ≤ data.length)
    (j : ℕ) :
    (((checkRunOfEight data avg).getD j default).status = DataStatus.RUN_OF_EIGHT_EXCEPTION ↔
      (data.getD j default).status = DataStatus.RUN_OF_EIGHT_EXCEPTION ∨
        ∃ t, 7 ≤ t ∧ t < data.length ∧ t - 7 ≤ j ∧ j ≤ t ∧ uniformA data avg t) := by
  unfold checkRunOfEight
  rw [if_neg (by omega)]
  exact roLoop_status avg data.length 7 (primeMaskAux data avg 7) data j (by omega) (by omega)
    (primeMask_pre data avg)

/-! The mask transcribed from the claim text (claimMaskA) agrees with the
window flags, so its all-ones and all-zeros states coincide with uniform
8-point windows. -/

theorem claimMaskA_succ (data : List DataValue) (avg : ℚ) (i : ℕ) :
    claimMaskA data avg (i + 1) =
      if vOf (data.getD (i + 1) default) > avg then
        claimMaskA data avg i ||| 1 <<< ((i + 1) % 8)
      else if i + 1 < 7 then claimMaskA data avg i
      else claimMaskA data avg i &&& (4294967295 ^^^ 1 <<< ((i + 1) % 8)) := rfl

theorem claimMaskA_le6 (data : List DataValue) (avg : ℚ) :
    ∀ i, i ≤ 6 → claimMaskA data avg i < 256 ∧
      ∀ k, k < 8 →
        (claimMaskA data avg i).testBit k = (decide (k ≤ i) && aboveB data avg k) := by
  intro i
  induction i with
  | zero =>
    intro _
    constructor
    · unfold claimMaskA
      split <;> decide
    · intro k hk
      unfold claimMaskA
      split <;> rename_i h
      · rw [Nat.one_shiftLeft, Nat.testBit_two_pow]
        have hB : aboveB data avg 0 = true := decide_eq_true h
        by_cases hk0 : k = 0
        · subst hk0
          simp [hB]
        · have h1 : ¬(0 % 8 = k) := by omega
          have h2 : ¬(k ≤ 0) := by omega
          simp [h1, h2]
      · rw [Nat.zero_testBit]
        have hB : aboveB data avg 0 = false := decide_eq_false h
        by_cases hk0 : k = 0
        · subst hk0
          simp [hB]
        · have h2 : ¬(k ≤ 0) := by omega
          simp [h2]
  | succ i ih =>
    intro hi
    obtain ⟨ihlt, ihbits⟩ := ih (by omega)
    have hstep : claimMaskA data avg (i + 1) =
        if vOf (data.getD (i + 1) default) > avg then
          claimMaskA data avg i ||| 1 <<< ((i + 1) % 8)
        else claimMaskA data avg i := by
      rw [claimMaskA_succ]
      by_cases h : vOf (data.getD (i + 1) default) > avg
      · rw [if_pos h, if_pos h]
      · rw [if_neg h, if_neg h, if_pos (by omega)]
    have hmod : (i + 1) % 8 = i + 1 := Nat.mod_eq_of_lt (by omega)
    constructor
    · rw [hstep]
      split
      · exact setBit_lt _ ihlt (by omega)
      · exact ihlt
    · intro k hk
      rw [hstep]
      split <;> rename_i ha
      · rw [testBit_setBit, ihbits k hk, hmod]
        by_cases hkm : k = i + 1
        · subst hkm
          have hB : aboveB data avg (i + 1) = true := decide_eq_true ha
          simp [hB]
        · have hne : ¬(i + 1 = k) := fun hh => hkm hh.symm
          have hiff : (k ≤ i + 1) ↔ (k ≤ i) := by omega
          simp [hne, hiff]
      · rw [ihbits k hk]
        by_cases hkm : k = i + 1
        · subst hkm
          have hB : aboveB data avg (i + 1) = false := decide_eq_false ha
          have h1 : ¬(i + 1 ≤ i) := by omega
          simp [hB, h1]
        · have hiff : (k ≤ i + 1) ↔ (k ≤ i) := by omega
          simp [hiff]

theorem claimMaskA_ok (data : List DataValue) (avg : ℚ) :
    ∀ i, 7 ≤ i → maskOk data avg i (claimMaskA data avg i) := by
  intro i
  induction i with
  | zero => intro h; omega
  | succ i ih =>
    intro h
    have hstep : claimMaskA data avg (i + 1) =
        maskUpd data avg (i + 1) (claimMaskA data avg i) := by
      rw [claimMaskA_succ]
      unfold maskUpd
      by_cases ha : vOf (data.getD (i + 1) default) > avg
      · rw [if_pos ha, if_pos ha]
      · rw [if_neg ha, if_neg ha, if_neg (by omega : ¬(i + 1 < 7))]
    by_cases h7 : 7 ≤ i
    · have hpre : maskPre data avg (i + 1) (claimMaskA data avg i) := maskOk_toPre (ih h7)
      rw [hstep]
      exact maskPre_step (by omega) hpre
    · have hi6 : i = 6 := by omega
      subst hi6
      have hpre : maskPre data avg 7 (claimMaskA data avg 6) := by
        obtain ⟨hlt, hbits⟩ := claimMaskA_le6 data avg 6 (by norm_num)
        refine ⟨hlt, ?_⟩
        intro k hk hne
        rw [hbits k hk]
        have hk6 : k ≤ 6 := by omega
        have hw : winJ (7 - 1) k = k := by unfold winJ; omega
        rw [hw]
        simp [hk6]
      rw [hstep]
      exact maskPre_step (by norm_num) hpre

/-! Claim C1: the Rule A mechanism. -/

/-- C1, confirmed: checkRunOfEight is a no-op on series shorter than 8;
otherwise, whenever the rolling mask described by the claim (claimMaskA, with
its set-only priming over indices 0..6 and set-or-clear updates from index 7
on) is all-zeros or all-ones after an index i in range, the eight points
i-7..i carry status RunOfEight (integer code 1) in the result. -/
theorem C1_checkRunOfEight (data : List DataValue) (avg : ℚ) :
    (data.length < 8 → checkRunOfEight data avg = data) ∧
    (8 ≤ data.length → ∀ i, 7 ≤ i → i < data.length →
      (claimMaskA data avg i = 0 ∨ claimMaskA data avg i = 255) →
      ∀ j, i - 7 ≤ j → j ≤ i →
        ((checkRunOfEight data avg).getD j default).status =
          DataStatus.RUN_OF_EIGHT_EXCEPTION) ∧
    DataStatus.code DataStatus.RUN_OF_EIGHT_EXCEPTION = 1 := by
  refine ⟨?_, ?_, rfl⟩
  · intro h
    unfold checkRunOfEight
    rw [if_pos h]
  · intro h8 i h7 hlen hmask j hj1 hj2
    have hOk := claimMaskA_ok data avg i h7
    have hu : uniformA data avg i := (maskOk_uniform h7 hOk).mp hmask
    exact (checkRunOfEight_status h8 j).mpr (Or.inr ⟨i, h7, hlen, hj1, hj2, hu⟩)

/-- Witness for C1 at 8 points constant at 10 against mean 10: the mask stays
all-zeros at index 7, so point 0 is marked. -/
theorem C1_witness :
    ((checkRunOfEight
        [⟨0, some "a", some 10, DataStatus.NORMAL⟩, ⟨1, some "b", some 10, DataStatus.NORMAL⟩,
         ⟨2, some "c", some 10, DataStatus.NORMAL⟩, ⟨3, some "d", some 10, DataStatus.NORMAL⟩,
         ⟨4, some "e", some 10, DataStatus.NORMAL⟩, ⟨5, some "f", some 10, DataStatus.NORMAL⟩,
         ⟨6, some "g", some 10, DataStatus.NORMAL⟩, ⟨7, some "h", some 10, DataStatus.NORMAL⟩]
        10).getD 0 default).status = DataStatus.RUN_OF_EIGHT_EXCEPTION :=
  (C1_checkRunOfEight
      [⟨0, some "a", some 10, DataStatus.NORMAL⟩, ⟨1, some "b", some 10, DataStatus.NORMAL⟩,
       ⟨2, some "c", some 10, DataStatus.NORMAL⟩, ⟨3, some "d", some 10, DataStatus.NORMAL⟩,
       ⟨4, some "e", some 10, DataStatus.NORMAL⟩, ⟨5, some "f", some 10, DataStatus.NORMAL⟩,
       ⟨6, some "g", some 10, DataStatus.NORMAL⟩, ⟨7, some "h", some 10, DataStatus.NORMAL⟩]
      10).2.1 (by decide) 7 (by decide) (by decide)
    (Or.inl (by with_unfolding_all decide)) 0 (by decide) (by decide)

/-! Claim C10: declarative characterization of Rule A. -/

/-- C10, confirmed: on a series of length at least 8 whose statuses start
Normal, a point receives RunOfEight exactly when it lies in some 8-point
window whose values are all strictly above the mean or all not strictly
above it; in particular every point of a uniform run longer than 8 is
marked. -/
theorem C10_runOfEight_windows (data : List DataValue) (m : ℚ) (j : ℕ)
    (h8 : 8 ≤ data.length) (hnorm : ∀ d ∈ data, d.status = DataStatus.NORMAL) :
    (((checkRunOfEight data m).getD j default).status = DataStatus.RUN_OF_EIGHT_EXCEPTION ↔
      ∃ w, w + 7 < data.length ∧ w ≤ j ∧ j ≤ w + 7 ∧
        ((∀ k, k < 8 → vOf (data.getD (w + k) default) > m) ∨
          (∀ k, k < 8 → ¬vOf (data.getD (w + k) default) > m))) := by
  rw [checkRunOfEight_status h8 j]
  have hstat : (data.getD j default).status ≠ DataStatus.RUN_OF_EIGHT_EXCEPTION := by
    rw [List.getD_eq_getElem?_getD]
    by_cases hj : j < data.length
    · rw [List.getElem?_eq_getElem hj]
      have := hnorm _ (List.getElem_mem hj)
      simp [this]
    · rw [List.getElem?_eq_none (by omega)]
      simp
  constructor
  · rintro (h | ⟨t, ht7, htlen, htj1, htj2, hu⟩)
    · exact absurd h hstat
    · refine ⟨t - 7, by omega, by omega, by omega, ?_⟩
      rcases hu with hall | hnone
      · left
        intro k hk
        exact of_decide_eq_true (hall k hk)
      · right
        intro k hk
        exact of_decide_eq_false (hnone k hk)
  · rintro ⟨w, hw1, hw2, hw3, hcase⟩
    refine Or.inr ⟨w + 7, by omega, hw1, by omega, hw3, ?_⟩
    have ht7 : w + 7 - 7 = w := by omega
    unfold uniformA
    rw [ht7]
    rcases hcase with hall | hnone
    · left
      intro k hk
      exact decide_eq_true (hall k hk)
    · right
      intro k hk
      exact decide_eq_false (hnone k hk)

/-- Witness for C10 at the 9-point constant series of the specification: the
9th point (index 8) is marked through the window starting at index 1. -/
theorem C10_witness :
    ((checkRunOfEight
        [⟨0, some "a", some 10, DataStatus.NORMAL⟩, ⟨1, some "b", some 10, DataStatus.NORMAL⟩,
         ⟨2, some "c", some 10, DataStatus.NORMAL⟩, ⟨3, some "d", some 10, DataStatus.NORMAL⟩,
         ⟨4, some "e", some 10, DataStatus.NORMAL⟩, ⟨5, some "f", some 10, DataStatus.NORMAL⟩,
         ⟨6, some "g", some 10, DataStatus.NORMAL⟩, ⟨7, some "h", some 10, DataStatus.NORMAL⟩,
         ⟨8, some "i", some 10, DataStatus.NORMAL⟩]
        10).getD 8 default).status = DataStatus.RUN_OF_EIGHT_EXCEPTION :=
  (C10_runOfEight_windows
      [⟨0, some "a", some 10, DataStatus.NORMAL⟩, ⟨1, some "b", some 10, DataStatus.NORMAL⟩,
       ⟨2, some "c", some 10, DataStatus.NORMAL⟩, ⟨3, some "d", some 10, DataStatus.NORMAL⟩,
       ⟨4, some "e", some 10, DataStatus.NORMAL⟩, ⟨5, some "f", some 10, DataStatus.NORMAL⟩,
       ⟨6, some "g", some 10, DataStatus.NORMAL⟩, ⟨7, some "h", some 10, DataStatus.NORMAL⟩,
       ⟨8, some "i", some 10, DataStatus.NORMAL⟩]
      10 8 (by decide) (by decide)).mpr
    ⟨1, by decide, by decide, by decide, Or.inr (by with_unfolding_all decide)⟩

/-! Rule B: the two sliding counters of checkFourNearLimit. -/

theorem fnlAdd_eq (lq uq : ℚ) (p : ℤ × ℤ) (data : List DataValue) (j : ℕ) :
    fnlAdd lq uq p (vOf (data.getD j default)) =
      (p.1 + indBelow data lq j, p.2 + indAboveCode data lq uq j) := by
  unfold fnlAdd indBelow indAboveCode
  split_ifs <;> simp

theorem fnlSub_eq (lq uq : ℚ) (p : ℤ × ℤ) (data : List DataValue) (j : ℕ) :
    fnlSub lq uq p (vOf (data.getD j default)) =
      (p.1 - indBelow data lq j, p.2 - indAboveCode data lq uq j) := by
  unfold fnlSub indBelow indAboveCode
  split_ifs <;> simp

theorem indBelow_markRange (a b : ℕ) (s : DataStatus) (l : List DataValue) (lq : ℚ)
    (j x : ℕ) : indBelow (markRange a b s j l) lq x = indBelow l lq x := by
  unfold indBelow
  rw [vOf_getD_markRange]

theorem indAboveCode_markRange (a b : ℕ) (s : DataStatus) (l : List DataValue) (lq uq : ℚ)
    (j x : ℕ) : indAboveCode (markRange a b s j l) lq uq x = indAboveCode l lq uq x := by
  unfold indAboveCode
  rw [vOf_getD_markRange]

theorem below3_markRange (a b : ℕ) (s : DataStatus) (l : List DataValue) (lq : ℚ)
    (j t : ℕ) : below3 (markRange a b s j l) lq t = below3 l lq t := by
  unfold below3
  rw [indBelow_markRange, indBelow_markRange, indBelow_markRange]

theorem above3_markRange (a b : ℕ) (s : DataStatus) (l : List DataValue) (lq uq : ℚ)
    (j t : ℕ) : above3 (markRange a b s j l) lq uq t = above3 l lq uq t := by
  unfold above3
  rw [indAboveCode_markRange, indAboveCode_markRange, indAboveCode_markRange]

theorem below4_markRange (a b : ℕ) (s : DataStatus) (l : List DataValue) (lq : ℚ)
    (j t : ℕ) : below4 (markRange a b s j l) lq t = below4 l lq t := by
  unfold below4
  rw [indBelow_markRange, indBelow_markRange, indBelow_markRange, indBelow_markRange]

theorem above4Code_markRange (a b : ℕ) (s : DataStatus) (l : List DataValue) (lq uq : ℚ)
    (j t : ℕ) : above4Code (markRange a b s j l) lq uq t = above4Code l lq uq t := by
  unfold above4Code
  rw [indAboveCode_markRange, indAboveCode_markRange, indAboveCode_markRange,
    indAboveCode_markRange]

theorem below4_eq_below3_add (data : List DataValue) (lq : ℚ) (i : ℕ) :
    below4 data lq i = below3 data lq i + indBelow data lq i := rfl

theorem above4Code_eq_above3_add (data : List DataValue) (lq uq : ℚ) (i : ℕ) :
    above4Code data lq uq i = above3 data lq uq i + indAboveCode data lq uq i := rfl

theorem below3_succ (data : List DataValue) (lq : ℚ) {i : ℕ} (h : 3 ≤ i) :
    below3 data lq (i + 1) = below4 data lq i - indBelow data lq (i - 3) := by
  unfold below3 below4
  have e1 : i + 1 - 3 = i - 2 := by omega
  have e2 : i + 1 - 2 = i - 1 := by omega
  have e3 : i + 1 - 1 = i := by omega
  rw [e1, e2, e3]
  ring

theorem above3_succ (data : List DataValue) (lq uq : ℚ) {i : ℕ} (h : 3 ≤ i) :
    above3 data lq uq (i + 1) = above4Code data lq uq i - indAboveCode data lq uq (i - 3) := by
  unfold above3 above4Code
  have e1 : i + 1 - 3 = i - 2 := by omega
  have e2 : i + 1 - 2 = i - 1 := by omega
  have e3 : i + 1 - 1 = i := by omega
  rw [e1, e2, e3]
  ring

/-- Which points the Rule B main loop marks: a point j ends with status
FourNearLimit exactly when it already had it, or some iteration t in range
finds at least 3 of the 4 window points below the lower marker, or at least
3 above the upper marker (with the below test taking priority as in the
else-if chain of the code). -/
theorem fnlLoop_status (lq uq : ℚ) : ∀ (fuel i : ℕ) (p : ℤ × ℤ) (data : List DataValue)
    (j : ℕ), data.length ≤ i + fuel → 3 ≤ i →
    p.1 = below3 data lq i → p.2 = above3 data lq uq i →
    (((fnlLoop lq uq fuel i p data).getD j default).status =
        DataStatus.FOUR_NEAR_LIMIT_EXCEPTION ↔
      (data.getD j default).status = DataStatus.FOUR_NEAR_LIMIT_EXCEPTION ∨
        ∃ t, i ≤ t ∧ t < data.length ∧ t - 3 ≤ j ∧ j ≤ t ∧
          (3 ≤ below4 data lq t ∨ 3 ≤ above4Code data lq uq t)) := by
  intro fuel
  induction fuel with
  | zero =>
    intro i p data j hlen h3 hp1 hp2
    simp only [fnlLoop]
    constructor
    · exact Or.inl
    · rintro (h | ⟨t, ht1, ht2, _, _, _⟩)
      · exact h
      · omega
  | succ fuel ih =>
    intro i p data j hlen h3 hp1 hp2
    by_cases hi : i < data.length
    case neg =>
      simp only [fnlLoop, if_neg hi]
      constructor
      · exact Or.inl
      · rintro (h | ⟨t, ht1, ht2, _, _, _⟩)
        · exact h
        · omega
    case pos =>
      simp only [fnlLoop, if_pos hi]
      rw [fnlAdd_eq, hp1, hp2]
      by_cases hcond : 3 ≤ below3 data lq i + indBelow data lq i ∨
          3 ≤ above3 data lq uq i + indAboveCode data lq uq i
      case pos =>
        rw [if_pos hcond]
        have hlen1 : (markRange (i - 3) i DataStatus.FOUR_NEAR_LIMIT_EXCEPTION 0 data).length =
            data.length := length_markRange _ _ _ _ _
        rw [vOf_getD_markRange, fnlSub_eq]
        have hrec := ih (i + 1)
          (below3 data lq i + indBelow data lq i - indBelow data lq (i - 3),
            above3 data lq uq i + indAboveCode data lq uq i - indAboveCode data lq uq (i - 3))
          (markRange (i - 3) i DataStatus.FOUR_NEAR_LIMIT_EXCEPTION 0 data) j
          (by omega) (by omega)
          (by
            rw [below3_markRange, below3_succ data lq h3, below4_eq_below3_add])
          (by
            rw [above3_markRange, above3_succ data lq uq h3, above4Code_eq_above3_add])
        rw [hrec]
        have hst : (((markRange (i - 3) i DataStatus.FOUR_NEAR_LIMIT_EXCEPTION 0 data).getD j
              default).status = DataStatus.FOUR_NEAR_LIMIT_EXCEPTION) ↔
            ((j < data.length ∧ i - 3 ≤ j ∧ j ≤ i) ∨
              (data.getD j default).status = DataStatus.FOUR_NEAR_LIMIT_EXCEPTION) := by
          rw [status_getD_markRange]
          split_ifs with hcase
          · constructor
            · intro _
              exact Or.inl ⟨hcase.1, by omega, by omega⟩
            · intro _
              rfl
          · constructor
            · exact Or.inr
            · rintro (⟨h1, h2, h3⟩ | hOld)
              · exact absurd ⟨h1, by omega, by omega⟩ hcase
              · exact hOld
        have hui : 3 ≤ below4 data lq i ∨ 3 ≤ above4Code data lq uq i := by
          rwa [below4_eq_below3_add, above4Code_eq_above3_add]
        constructor
        · rintro (hD | ⟨t, ht1, ht2, ht3, ht4, ht5⟩)
          · rcases hst.mp hD with ⟨hjl, hj1, hj2⟩ | hOld
            · exact Or.inr ⟨i, le_refl i, hi, hj1, hj2, hui⟩
            · exact Or.inl hOld
          · rw [below4_markRange, above4Code_markRange] at ht5
            exact Or.inr ⟨t, by omega, by rwa [hlen1] at ht2, ht3, ht4, ht5⟩
        · rintro (hOld | ⟨t, ht1, ht2, ht3, ht4, ht5⟩)
          · exact Or.inl (hst.mpr (Or.inr hOld))
          · by_cases hti : t = i
            · subst hti
              exact Or.inl (hst.mpr (Or.inl ⟨by omega, ht3, ht4⟩))
            · refine Or.inr ⟨t, by omega, by rwa [hlen1], ht3, ht4, ?_⟩
              rwa [below4_markRange, above4Code_markRange]
      case neg =>
        rw [if_neg hcond]
        rw [fnlSub_eq]
        have hrec := ih (i + 1)
          (below3 data lq i + indBelow data lq i - indBelow data lq (i - 3),
            above3 data lq uq i + indAboveCode data lq uq i - indAboveCode data lq uq (i - 3))
          data j (by omega) (by omega)
          (by rw [below3_succ data lq h3, below4_eq_below3_add])
          (by rw [above3_succ data lq uq h3, above4Code_eq_above3_add])
        rw [hrec]
        have hnu : ¬(3 ≤ below4 data lq i ∨ 3 ≤ above4Code data lq uq i) := by
          rwa [below4_eq_below3_add, above4Code_eq_above3_add]
        constructor
        · rintro (h | ⟨t, ht1, ht2, ht3, ht4, ht5⟩)
          · exact Or.inl h
          · exact Or.inr ⟨t, by omega, ht2, ht3, ht4, ht5⟩
        · rintro (h | ⟨t, ht1, ht2, ht3, ht4, ht5⟩)
          · exact Or.inl h
          · have hti : t ≠ i := fun he => hnu (he ▸ ht5)
            exact Or.inr ⟨t, by omega, ht2, ht3, ht4, ht5⟩

theorem fnlInit_eq (data : List DataValue) (lq uq : ℚ) :
    (List.range 3).foldl (fun p i => fnlAdd lq uq p (vOf (data.getD i default))) (0, 0) =
      (below3 data lq 3, above3 data lq uq 3) := by
  have h3 : List.range 3 = [0, 1, 2] := rfl
  rw [h3]
  simp only [List.foldl_cons, List.foldl_nil]
  rw [fnlAdd_eq, fnlAdd_eq, fnlAdd_eq]
  unfold below3 above3
  norm_num

/-- Which points checkFourNearLimit marks, for a series of length at
least 4. -/
theorem checkFourNearLimit_status {data : List DataValue} {lq uq : ℚ}
    (h4 : 4 ≤ data.length) (j : ℕ) :
    (((checkFourNearLimit data lq uq).getD j default).status =
        DataStatus.FOUR_NEAR_LIMIT_EXCEPTION ↔
      (data.getD j default).status = DataStatus.FOUR_NEAR_LIMIT_EXCEPTION ∨
        ∃ t, 3 ≤ t ∧ t < data.length ∧ t - 3 ≤ j ∧ j ≤ t ∧
          (3 ≤ below4 data lq t ∨ 3 ≤ above4Code data lq uq t)) := by
  unfold checkFourNearLimit
  rw [if_neg (by omega), fnlInit_eq]
  exact fnlLoop_status lq uq data.length 3 _ data j (by omega) (by omega) rfl rfl

theorem indAboveCode_eq_indAbove (data : List DataValue) {lq uq : ℚ} (h : lq ≤ uq) (j : ℕ) :
    indAboveCode data lq uq j = indAbove data uq j := by
  unfold indAboveCode indAbove
  split_ifs with h1 h2 <;> first | rfl | linarith

theorem above4Code_eq_above4 (data : List DataValue) {lq uq : ℚ} (h : lq ≤ uq) (t : ℕ) :
    above4Code data lq uq t = above4 data uq t := by
  unfold above4Code above4
  rw [indAboveCode_eq_indAbove data h, indAboveCode_eq_indAbove data h,
    indAboveCode_eq_indAbove data h, indAboveCode_eq_indAbove data h]

/-! Claim C2: the Rule B mechanism. -/

/-- C2, confirmed: checkFourNearLimit is a no-op on series shorter than 4;
otherwise, with quarter markers in their natural order and all statuses
starting Normal, a point ends with status FourNearLimit (integer code 2)
exactly when some window of 4 consecutive points containing it has at least 3
points strictly below the lower quarter marker or at least 3 points strictly
above the upper quarter marker.  The window ending at index t is tested right
after the contribution of t is added and before the contribution of t-3 is
subtracted, which is the add-before-test-before-subtract order of the
claim. -/
theorem C2_checkFourNearLimit (data : List DataValue) (lq uq : ℚ) :
    (data.length < 4 → checkFourNearLimit data lq uq = data) ∧
    (lq ≤ uq → (∀ d ∈ data, d.status = DataStatus.NORMAL) → ∀ j,
      (((checkFourNearLimit data lq uq).getD j default).status =
          DataStatus.FOUR_NEAR_LIMIT_EXCEPTION ↔
        ∃ t, 3 ≤ t ∧ t < data.length ∧ t - 3 ≤ j ∧ j ≤ t ∧
          (3 ≤ below4 data lq t ∨ 3 ≤ above4 data uq t))) ∧
    DataStatus.code DataStatus.FOUR_NEAR_LIMIT_EXCEPTION = 2 := by
  refine ⟨?_, ?_, rfl⟩
  · intro h
    unfold checkFourNearLimit
    rw [if_pos h]
  · intro hlu hnorm j
    have hstat : (data.getD j default).status ≠ DataStatus.FOUR_NEAR_LIMIT_EXCEPTION := by
      rw [List.getD_eq_getElem?_getD]
      by_cases hj : j < data.length
      · rw [List.getElem?_eq_getElem hj]
        have := hnorm _ (List.getElem_mem hj)
        simp [this]
      · rw [List.getElem?_eq_none (by omega)]
        simp
    by_cases h4 : 4 ≤ data.length
    · rw [checkFourNearLimit_status h4 j]
      constructor
      · rintro (h | ⟨t, ht1, ht2, ht3, ht4, ht5⟩)
        · exact absurd h hstat
        · rw [above4Code_eq_above4 data hlu] at ht5
          exact ⟨t, ht1, ht2, ht3, ht4, ht5⟩
      · rintro ⟨t, ht1, ht2, ht3, ht4, ht5⟩
        rw [← above4Code_eq_above4 data hlu] at ht5
        exact Or.inr ⟨t, ht1, ht2, ht3, ht4, ht5⟩
    · unfold checkFourNearLimit
      rw [if_pos (by omega)]
      constructor
      · intro h
        exact absurd h hstat
      · rintro ⟨t, ht1, ht2, _, _, _⟩
        omega

/-- Witness for C2: lower marker 0 and upper marker 10 with values
11, 11, 11, 0; three of the four window points are above the upper marker,
so point 0 is marked. -/
theorem C2_witness :
    (0 : ℚ) ≤ 10 ∧
    ((checkFourNearLimit
        [⟨0, some "a", some 11, DataStatus.NORMAL⟩, ⟨1, some "b", some 11, DataStatus.NORMAL⟩,
         ⟨2, some "c", some 11, DataStatus.NORMAL⟩, ⟨3, some "d", some 0, DataStatus.NORMAL⟩]
        0 10).getD 0 default).status = DataStatus.FOUR_NEAR_LIMIT_EXCEPTION :=
  ⟨by norm_num,
   ((C2_checkFourNearLimit
        [⟨0, some "a", some 11, DataStatus.NORMAL⟩, ⟨1, some "b", some 11, DataStatus.NORMAL⟩,
         ⟨2, some "c", some 11, DataStatus.NORMAL⟩, ⟨3, some "d", some 0, DataStatus.NORMAL⟩]
        0 10).2.1 (by norm_num) (by decide) 0).mpr
      ⟨3, by decide, by decide, by decide, by decide,
        Or.inr (by with_unfolding_all decide)⟩⟩

/-! Claim C6: preprocessing.  The code drops records with an empty-string x
as well (JS truthiness), so the claim is corrected; the sort is a stable
ascending sort by parsed timestamp. -/

/-- C6, counterexample: a record whose x is present (the empty string) and
whose value is present is dropped by removeAllNulls, although the claim says
only records with absent x or absent value are dropped. -/
theorem C6_counterexample :
    removeAllNulls [⟨0, some "", some 5, DataStatus.NORMAL⟩] = [] ∧
    (⟨0, some "", some 5, DataStatus.NORMAL⟩ : DataValue).x ≠ none ∧
    (⟨0, some "", some 5, DataStatus.NORMAL⟩ : DataValue).value ≠ none :=
  ⟨by decide, by decide, by decide⟩

theorem removeAllNulls_eq_filter (dv : List DataValue) :
    removeAllNulls dv =
      dv.filter (fun d => decide (d.x ≠ none ∧ d.x ≠ some "" ∧ d.value ≠ none)) := by
  unfold removeAllNulls
  have hfun : (fun d : DataValue => jsTruthyStr d.x && (jsTruthyNum d.value || jsEqZero d.value))
      = fun d : DataValue => decide (d.x ≠ none ∧ d.x ≠ some "" ∧ d.value ≠ none) := by
    funext d
    rcases hx : d.x with _ | s <;> rcases hv : d.value with _ | v <;>
      simp [jsTruthyStr, jsTruthyNum, jsEqZero, hx, hv]
  rw [hfun]

theorem sortDataValues_sorted (p : String → ℚ) (l : List DataValue) :
    List.Sorted (fun a b : DataValue => p (a.x.getD "") ≤ p (b.x.getD ""))
      (sortDataValues p l) := by
  haveI : IsTotal DataValue (fun a b : DataValue => p (a.x.getD "") ≤ p (b.x.getD "")) :=
    ⟨fun a b => le_total _ _⟩
  haveI : IsTrans DataValue (fun a b : DataValue => p (a.x.getD "") ≤ p (b.x.getD "")) :=
    ⟨fun _ _ _ hab hbc => le_trans hab hbc⟩
  exact List.sorted_insertionSort _ l

theorem filter_orderedInsert_key (p : String → ℚ) (k : ℚ) (a : DataValue) :
    ∀ s : List DataValue,
      (s.orderedInsert (fun x y : DataValue => p (x.x.getD "") ≤ p (y.x.getD "")) a).filter
          (fun d => decide (p (d.x.getD "") = k)) =
        if p (a.x.getD "") = k then a :: s.filter (fun d => decide (p (d.x.getD "") = k))
        else s.filter (fun d => decide (p (d.x.getD "") = k)) := by
  intro s
  induction s with
  | nil =>
    simp only [List.orderedInsert, List.filter]
    by_cases hqa : p (a.x.getD "") = k <;> simp [hqa]
  | cons b s ih =>
    simp only [List.orderedInsert]
    by_cases hab : p (a.x.getD "") ≤ p (b.x.getD "")
    · rw [if_pos hab]
      by_cases hqa : p (a.x.getD "") = k <;> simp [List.filter_cons, hqa]
    · rw [if_neg hab]
      have hba : p (b.x.getD "") < p (a.x.getD "") := lt_of_not_le hab
      by_cases hqa : p (a.x.getD "") = k
      · have hqb : ¬(p (b.x.getD "") = k) := by
          intro hh
          rw [hqa] at hba
          rw [hh] at hba
          exact lt_irrefl _ hba
        simp [List.filter_cons, hqa, hqb, ih]
      · simp [List.filter_cons, hqa, ih]

theorem filter_insertionSort_key (p : String → ℚ) (k : ℚ) :
    ∀ l : List DataValue,
      (l.insertionSort (fun x y : DataValue => p (x.x.getD "") ≤ p (y.x.getD ""))).filter
          (fun d => decide (p (d.x.getD "") = k)) =
        l.filter (fun d => decide (p (d.x.getD "") = k)) := by
  intro l
  induction l with
  | nil => rfl
  | cons a l ih =>
    simp only [List.insertionSort]
    rw [filter_orderedInsert_key]
    by_cases hqa : p (a.x.getD "") = k <;> simp [List.filter_cons, hqa, ih]

/-- C6, amended: removeAllNulls keeps exactly the records whose x is present
and not the empty string and whose value is present (a present value of
exactly zero is kept); it raises no error on malformed rows; and
sortDataValues stably sorts ascending by parsed timestamp, so records with
equal parsed timestamps keep their relative input order (the filtered
sublist at each timestamp key is unchanged). -/
theorem C6_preprocess (p : String → ℚ) (dv : List DataValue) :
    removeAllNulls dv =
      dv.filter (fun d => decide (d.x ≠ none ∧ d.x ≠ some "" ∧ d.value ≠ none)) ∧
    List.Sorted (fun a b : DataValue => p (a.x.getD "") ≤ p (b.x.getD ""))
      (sortDataValues p (removeAllNulls dv)) ∧
    ∀ k : ℚ,
      (sortDataValues p (removeAllNulls dv)).filter (fun d => decide (p (d.x.getD "") = k)) =
        (removeAllNulls dv).filter (fun d => decide (p (d.x.getD "") = k)) :=
  ⟨removeAllNulls_eq_filter dv, sortDataValues_sorted p (removeAllNulls dv),
    fun k => filter_insertionSort_key p k (removeAllNulls dv)⟩

/-! Statuses and immutable fields through the exception checks. -/

theorem status_mem_roLoop (avg : ℚ) : ∀ (fuel i mask : ℕ) (data : List DataValue) (pt : DataValue),
    pt ∈ roLoop avg fuel i mask data →
    pt.status = DataStatus.RUN_OF_EIGHT_EXCEPTION ∨ ∃ d ∈ data, pt.status = d.status := by
  intro fuel
  induction fuel with
  | zero =>
    intro i mask data pt h
    simp only [roLoop] at h
    exact Or.inr ⟨pt, h, rfl⟩
  | succ fuel ih =>
    intro i mask data pt h
    simp only [roLoop] at h
    by_cases hi : i < data.length
    case neg =>
      rw [if_neg hi] at h
      exact Or.inr ⟨pt, h, rfl⟩
    case pos =>
      rw [if_pos hi] at h
      rcases ih _ _ _ pt h with h1 | ⟨d, hd, h2⟩
      · exact Or.inl h1
      · by_cases hc : maskUpd data avg i mask = 0 ∨ maskUpd data avg i mask = 255
        · rw [if_pos hc] at hd
          rcases status_mem_markRange hd with hs | ⟨e, he, hs⟩
          · exact Or.inl (h2.trans hs)
          · exact Or.inr ⟨e, he, h2.trans hs⟩
        · rw [if_neg hc] at hd
          exact Or.inr ⟨d, hd, h2⟩

theorem status_mem_fnlLoop (lq uq : ℚ) : ∀ (fuel i : ℕ) (p : ℤ × ℤ) (data : List DataValue)
    (pt : DataValue), pt ∈ fnlLoop lq uq fuel i p data →
    pt.status = DataStatus.FOUR_NEAR_LIMIT_EXCEPTION ∨ ∃ d ∈ data, pt.status = d.status := by
  intro fuel
  induction fuel with
  | zero =>
    intro i p data pt h
    simp only [fnlLoop] at h
    exact Or.inr ⟨pt, h, rfl⟩
  | succ fuel ih =>
    intro i p data pt h
    simp only [fnlLoop] at h
    by_cases hi : i < data.length
    case neg =>
      rw [if_neg hi] at h
      exact Or.inr ⟨pt, h, rfl⟩
    case pos =>
      rw [if_pos hi] at h
      rcases ih _ _ _ pt h with h1 | ⟨d, hd, h2⟩
      · exact Or.inl h1
      · by_cases hc : 3 ≤ (fnlAdd lq uq p (vOf (data.getD i default))).1 ∨
            3 ≤ (fnlAdd lq uq p (vOf (data.getD i default))).2
        · rw [if_pos hc] at hd
          rcases status_mem_markRange hd with hs | ⟨e, he, hs⟩
          · exact Or.inl (h2.trans hs)
          · exact Or.inr ⟨e, he, h2.trans hs⟩
        · rw [if_neg hc] at hd
          exact Or.inr ⟨d, hd, h2⟩

theorem status_mem_checkRunOfEight {data : List DataValue} {avg : ℚ} {pt : DataValue}
    (h : pt ∈ checkRunOfEight data avg) :
    pt.status = DataStatus.RUN_OF_EIGHT_EXCEPTION ∨ ∃ d ∈ data, pt.status = d.status := by
  unfold checkRunOfEight at h
  split at h
  · exact Or.inr ⟨pt, h, rfl⟩
  · exact status_mem_roLoop avg _ _ _ _ pt h

theorem status_mem_checkFourNearLimit {data : List DataValue} {lq uq : ℚ} {pt : DataValue}
    (h : pt ∈ checkFourNearLimit data lq uq) :
    pt.status = DataStatus.FOUR_NEAR_LIMIT_EXCEPTION ∨ ∃ d ∈ data, pt.status = d.status := by
  unfold checkFourNearLimit at h
  split at h
  · exact Or.inr ⟨pt, h, rfl⟩
  · exact status_mem_fnlLoop lq uq _ _ _ _ pt h

theorem map_dvCore_roLoop (avg : ℚ) : ∀ (fuel i mask : ℕ) (data : List DataValue),
    (roLoop avg fuel i mask data).map dvCore = data.map dvCore := by
  intro fuel
  induction fuel with
  | zero => intro i mask data; rfl
  | succ fuel ih =>
    intro i mask data
    simp only [roLoop]
    by_cases hi : i < data.length
    case neg => rw [if_neg hi]
    case pos =>
      rw [if_pos hi, ih]
      by_cases hc : maskUpd data avg i mask = 0 ∨ maskUpd data avg i mask = 255
      · rw [if_pos hc, map_dvCore_markRange]
      · rw [if_neg hc]

theorem map_dvCore_fnlLoop (lq uq : ℚ) : ∀ (fuel i : ℕ) (p : ℤ × ℤ) (data : List DataValue),
    (fnlLoop lq uq fuel i p data).map dvCore = data.map dvCore := by
  intro fuel
  induction fuel with
  | zero => intro i p data; rfl
  | succ fuel ih =>
    intro i p data
    simp only [fnlLoop]
    by_cases hi : i < data.length
    case neg => rw [if_neg hi]
    case pos =>
      rw [if_pos hi, ih]
      by_cases hc : 3 ≤ (fnlAdd lq uq p (vOf (data.getD i default))).1 ∨
          3 ≤ (fnlAdd lq uq p (vOf (data.getD i default))).2
      · rw [if_pos hc, map_dvCore_markRange]
      · rw [if_neg hc]

theorem map_dvCore_checkRunOfEight (data : List DataValue) (avg : ℚ) :
    (checkRunOfEight data avg).map dvCore = data.map dvCore := by
  unfold checkRunOfEight
  split
  · rfl
  · exact map_dvCore_roLoop avg _ _ _ _

theorem map_dvCore_checkFourNearLimit (data : List DataValue) (lq uq : ℚ) :
    (checkFourNearLimit data lq uq).map dvCore = data.map dvCore := by
  unfold checkFourNearLimit
  split
  · rfl
  · exact map_dvCore_fnlLoop lq uq _ _ _ _

theorem map_dvCore_checkOutsideLimit (data : List DataValue) (lo hi : ℚ) :
    (checkOutsideLimit data lo hi).map dvCore = data.map dvCore := by
  unfold checkOutsideLimit
  rw [List.map_map]
  congr 1
  funext d
  simp only [Function.comp_apply]
  split_ifs <;> rfl

theorem map_dvCore_reset (data : List DataValue) :
    ((data.map fun dv => { dv with status := DataStatus.NORMAL }).map dvCore) =
      data.map dvCore := by
  rw [List.map_map]
  congr 1

/-! Claim C9: the frame condition of computeXmrStats on caller data. -/

/-- C9, confirmed: the annotated value series that computeXmrStats returns
(the caller's points, mutated in place in the source) differs from the
cleaned, sorted input only in the status fields: order, x and value are
unchanged point for point. -/
theorem C9_computeXmrStats_frame (p : String → ℚ) (data : List DataValue) :
    ∀ l ∈ (computeXmrStats p data).xdataPerRange,
      l.map dvCore = (sortDataValues p (removeAllNulls data)).map dvCore := by
  intro l hl
  simp only [computeXmrStats, apply_ite (fun s : Stats => s.xdataPerRange)] at hl
  split at hl <;> rename_i hT
  · simp at hl
  · rw [List.mem_singleton] at hl
    subst hl
    rw [map_dvCore_checkOutsideLimit, map_dvCore_checkFourNearLimit,
      map_dvCore_checkRunOfEight, map_dvCore_reset]

/-- Witness for C9 at a concrete two-point input. -/
theorem C9_witness :
    ((computeXmrStats (fun _ => 0)
          [⟨0, some "a", some 1, DataStatus.NORMAL⟩,
           ⟨1, some "b", some 2, DataStatus.NORMAL⟩]).xdataPerRange.getD 0 []).map dvCore =
      (sortDataValues (fun _ => 0)
          (removeAllNulls
            [⟨0, some "a", some 1, DataStatus.NORMAL⟩,
             ⟨1, some "b", some 2, DataStatus.NORMAL⟩])).map dvCore :=
  C9_computeXmrStats_frame (fun _ => 0)
    [⟨0, some "a", some 1, DataStatus.NORMAL⟩, ⟨1, some "b", some 2, DataStatus.NORMAL⟩]
    _ (by with_unfolding_all decide)

/-! Claim C3: precedence of the outside-limit check. -/

theorem outMap_vOf (d : DataValue) (lo hi : ℚ) :
    vOf (if vOf d < lo then { d with status := DataStatus.NPL_EXCEPTION }
      else if vOf d > hi then { d with status := DataStatus.NPL_EXCEPTION } else d) = vOf d := by
  split_ifs <;> rfl

theorem outMap_status_low {d : DataValue} {lo hi : ℚ} (h : vOf d < lo) :
    (if vOf d < lo then { d with status := DataStatus.NPL_EXCEPTION }
      else if vOf d > hi then { d with status := DataStatus.NPL_EXCEPTION } else d).status =
      DataStatus.NPL_EXCEPTION := by
  rw [if_pos h]

theorem outMap_status_high {d : DataValue} {lo hi : ℚ} (h2 : vOf d > hi) :
    (if vOf d < lo then { d with status := DataStatus.NPL_EXCEPTION }
      else if vOf d > hi then { d with status := DataStatus.NPL_EXCEPTION } else d).status =
      DataStatus.NPL_EXCEPTION := by
  by_cases h1 : vOf d < lo
  · rw [if_pos h1]
  · rw [if_neg h1, if_pos h2]

theorem outMap_status_mid {d : DataValue} {lo hi : ℚ} (h1 : ¬vOf d < lo)
    (h2 : ¬vOf d > hi) :
    (if vOf d < lo then { d with status := DataStatus.NPL_EXCEPTION }
      else if vOf d > hi then { d with status := DataStatus.NPL_EXCEPTION } else d) = d := by
  rw [if_neg h1, if_neg h2]

/-- C3, confirmed: after computeXmrStats runs the three checks in order over
the value series (statuses reset first), every annotated value point strictly
below LNPL or strictly above UNPL carries final status OutsideLimit (integer
code 3), whatever Rules A and B did earlier; and a point exactly equal to a
limit is not flagged by Rule C, so its final status is never OutsideLimit. -/
theorem C3_outsideLimit (p : String → ℚ) (data : List DataValue) :
    (∀ lv ∈ (computeXmrStats p data).lineValues,
      ∀ l ∈ (computeXmrStats p data).xdataPerRange,
        ∀ pt ∈ l,
          (∀ lo, lv.LNPL = some lo → vOf pt < lo → pt.status = DataStatus.NPL_EXCEPTION) ∧
          (∀ hi, lv.UNPL = some hi → hi < vOf pt → pt.status = DataStatus.NPL_EXCEPTION) ∧
          (∀ lo hi, lv.LNPL = some lo → lv.UNPL = some hi →
            (vOf pt = lo ∨ vOf pt = hi) → pt.status ≠ DataStatus.NPL_EXCEPTION)) ∧
    DataStatus.code DataStatus.NPL_EXCEPTION = 3 := by
  refine ⟨?_, rfl⟩
  intro lv hlv l hl pt hpt
  simp only [computeXmrStats, apply_ite (fun s : Stats => s.lineValues)] at hlv
  simp only [computeXmrStats, apply_ite (fun s : Stats => s.xdataPerRange)] at hl
  split at hlv <;> rename_i hT
  · simp at hlv
  · rw [if_neg hT] at hl
    rw [List.mem_singleton] at hlv hl
    subst hl
    have hLN : lv.LNPL =
        some ((calculateLimits (sortDataValues p (removeAllNulls data))).LNPL) := by
      rw [hlv]
    have hUN : lv.UNPL =
        some ((calculateLimits (sortDataValues p (removeAllNulls data))).UNPL) := by
      rw [hlv]
    have hle := LNPL_le_UNPL (sortDataValues p (removeAllNulls data))
    rcases List.mem_map.mp hpt with ⟨d, hd, rfl⟩
    have hd_nnpl : d.status ≠ DataStatus.NPL_EXCEPTION := by
      rcases status_mem_checkFourNearLimit hd with hs | ⟨e, he, hs⟩
      · rw [hs]
        decide
      · rcases status_mem_checkRunOfEight he with hs2 | ⟨e2, he2, hs2⟩
        · rw [hs, hs2]
          decide
        · rcases List.mem_map.mp he2 with ⟨e3, _, rfl⟩
          rw [hs, hs2]
          simp
    refine ⟨?_, ?_, ?_⟩
    · intro lo hlo hlt
      rw [hLN, Option.some.injEq] at hlo
      subst hlo
      rw [outMap_vOf] at hlt
      exact outMap_status_low hlt
    · intro hi hhi hgt
      rw [hUN, Option.some.injEq] at hhi
      subst hhi
      rw [outMap_vOf] at hgt
      exact outMap_status_high hgt
    · intro lo hi hlo hhi hbd
      rw [hLN, Option.some.injEq] at hlo
      rw [hUN, Option.some.injEq] at hhi
      subst hlo
      subst hhi
      rw [outMap_vOf] at hbd
      have h1 : ¬vOf d < (calculateLimits (sortDataValues p (removeAllNulls data))).LNPL := by
        rcases hbd with hb | hb
        · rw [hb]
          exact lt_irrefl _
        · rw [hb]
          intro hcon
          exact absurd (lt_of_le_of_lt hle hcon) (lt_irrefl _)
      have h2 : ¬vOf d > (calculateLimits (sortDataValues p (removeAllNulls data))).UNPL := by
        rcases hbd with hb | hb
        · rw [hb]
          intro hcon
          exact absurd (lt_of_lt_of_le hcon hle) (lt_irrefl _)
        · rw [hb]
          exact lt_irrefl _
      rw [outMap_status_mid h1 h2]
      exact hd_nnpl

set_option maxRecDepth 40000 in
/-- Witness for C3: eight points at 0 followed by 100; the last annotated
point exceeds UNPL (44.36) and ends with status OutsideLimit. -/
theorem C3_witness :
    (((computeXmrStats (fun _ => 0)
          [⟨0, some "a", some 0, DataStatus.NORMAL⟩, ⟨1, some "b", some 0, DataStatus.NORMAL⟩,
           ⟨2, some "c", some 0, DataStatus.NORMAL⟩, ⟨3, some "d", some 0, DataStatus.NORMAL⟩,
           ⟨4, some "e", some 0, DataStatus.NORMAL⟩, ⟨5, some "f", some 0, DataStatus.NORMAL⟩,
           ⟨6, some "g", some 0, DataStatus.NORMAL⟩, ⟨7, some "h", some 0, DataStatus.NORMAL⟩,
           ⟨8, some "i", some 100, DataStatus.NORMAL⟩]).xdataPerRange.getD 0 []).getD 8
        default).status = DataStatus.NPL_EXCEPTION :=
  ((C3_outsideLimit (fun _ => 0)
      [⟨0, some "a", some 0, DataStatus.NORMAL⟩, ⟨1, some "b", some 0, DataStatus.NORMAL⟩,
       ⟨2, some "c", some 0, DataStatus.NORMAL⟩, ⟨3, some "d", some 0, DataStatus.NORMAL⟩,
       ⟨4, some "e", some 0, DataStatus.NORMAL⟩, ⟨5, some "f", some 0, DataStatus.NORMAL⟩,
       ⟨6, some "g", some 0, DataStatus.NORMAL⟩, ⟨7, some "h", some 0, DataStatus.NORMAL⟩,
       ⟨8, some "i", some 100, DataStatus.NORMAL⟩]).1
    ((computeXmrStats (fun _ => 0)
        [⟨0, some "a", some 0, DataStatus.NORMAL⟩, ⟨1, some "b", some 0, DataStatus.NORMAL⟩,
         ⟨2, some "c", some 0, DataStatus.NORMAL⟩, ⟨3, some "d", some 0, DataStatus.NORMAL⟩,
         ⟨4, some "e", some 0, DataStatus.NORMAL⟩, ⟨5, some "f", some 0, DataStatus.NORMAL⟩,
         ⟨6, some "g", some 0, DataStatus.NORMAL⟩, ⟨7, some "h", some 0, DataStatus.NORMAL⟩,
         ⟨8, some "i", some 100, DataStatus.NORMAL⟩]).lineValues.getD 0 default)
    (by with_unfolding_all decide)
    ((computeXmrStats (fun _ => 0)
        [⟨0, some "a", some 0, DataStatus.NORMAL⟩, ⟨1, some "b", some 0, DataStatus.NORMAL⟩,
         ⟨2, some "c", some 0, DataStatus.NORMAL⟩, ⟨3, some "d", some 0, DataStatus.NORMAL⟩,
         ⟨4, some "e", some 0, DataStatus.NORMAL⟩, ⟨5, some "f", some 0, DataStatus.NORMAL⟩,
         ⟨6, some "g", some 0, DataStatus.NORMAL⟩, ⟨7, some "h", some 0, DataStatus.NORMAL⟩,
         ⟨8, some "i", some 100, DataStatus.NORMAL⟩]).xdataPerRange.getD 0 [])
    (by with_unfolding_all decide)
    (((computeXmrStats (fun _ => 0)
        [⟨0, some "a", some 0, DataStatus.NORMAL⟩, ⟨1, some "b", some 0, DataStatus.NORMAL⟩,
         ⟨2, some "c", some 0, DataStatus.NORMAL⟩, ⟨3, some "d", some 0, DataStatus.NORMAL⟩,
         ⟨4, some "e", some 0, DataStatus.NORMAL⟩, ⟨5, some "f", some 0, DataStatus.NORMAL⟩,
         ⟨6, some "g", some 0, DataStatus.NORMAL⟩, ⟨7, some "h", some 0, DataStatus.NORMAL⟩,
         ⟨8, some "i", some 100, DataStatus.NORMAL⟩]).xdataPerRange.getD 0 []).getD 8 default)
    (by with_unfolding_all decide)).2.1
    (((computeXmrStats (fun _ => 0)
        [⟨0, some "a", some 0, DataStatus.NORMAL⟩, ⟨1, some "b", some 0, DataStatus.NORMAL⟩,
         ⟨2, some "c", some 0, DataStatus.NORMAL⟩, ⟨3, some "d", some 0, DataStatus.NORMAL⟩,
         ⟨4, some "e", some 0, DataStatus.NORMAL⟩, ⟨5, some "f", some 0, DataStatus.NORMAL⟩,
         ⟨6, some "g", some 0, DataStatus.NORMAL⟩, ⟨7, some "h", some 0, DataStatus.NORMAL⟩,
         ⟨8, some "i", some 100, DataStatus.NORMAL⟩]).lineValues.getD 0 default).UNPL.getD 0)
    (by with_unfolding_all decide) (by with_unfolding_all decide)

end Xmr
